import Mathlib

/-!
Shallow embedding of the RV32I assembler in `rv32i_assembler.py`
(class `RV32IAssembler`), together with theorems settling the frozen
claims about it.

Modelling conventions:
* Python machine integers do not overflow here (plain `int`), so immediates
  are `Int` and packed words are `Int`/`Nat` with explicit masking where the
  source masks.
* Python `x >> k` on ints is a floor shift and `x & (2^w - 1)` is the
  non-negative residue `x mod 2^w` (two's complement); they are embedded as
  `Int.fdiv x (2^k)` and `(Int.emod x (2^w)).toNat`.
* A source line is modelled after comment stripping and tokenisation: the
  regexes in `preprocessor` / `parse_instruction` classify every cleaned
  line as a label definition, an instruction (lowercase mnemonic plus
  operand tokens split on commas/whitespace), or nothing.  Lines whose text
  matches neither regex (which crash the Python process) are outside the
  model.
* Mutation of `self` is threaded explicitly: functions that record alerts
  or reference labels return the alerts / referenced label they produce and
  the driver appends them, which reproduces the Python call order exactly.
* Uncaught Python exceptions are `PyErr` values.
-/

namespace RV32I

set_option maxRecDepth 8000

inductive PyErr where
  | valueError
  | attributeError
  | typeError
  | indexError
  | keyError
  | nameError
deriving DecidableEq, Repr

/-- The warning-flag dictionary handed to `RV32IAssembler.__init__`.
`error_on_warning` is a recognised key of the surrounding tooling, but no
method of the assembler ever reads it. -/
structure WarningFlags where
  suppress_all : Bool := false
  no_unused_label : Bool := false
  no_immediate_range : Bool := false
  error_on_warning : Bool := false
deriving DecidableEq, Repr

/-- An `Alert` object.  (The Python constructor stores `type` and `message`
wrapped in 1-tuples by a trailing-comma slip; nothing in the assembler ever
reads those fields back, so they are kept as plain strings here.) -/
structure Alert where
  type : String
  message : String
  line_num : Nat
  warning_type : Option String
deriving DecidableEq, Repr

inductive MemWord where
  /-- an encoded instruction word appended by the driver -/
  | word (n : Int)
  /-- the `AssemblerResults` object returned by `assemble_instruction`
  after it catches an exception (the driver appends it to memory), or the
  `None` a fall-through match would return -/
  | resultsObj
deriving DecidableEq, Repr

structure OpInfo where
  opcode : Nat
  fmt : String
  subtype : Option String := none
deriving DecidableEq, Repr

/-- `self.opcodes`. -/
def opcodes : List (String × OpInfo) :=
  [ ("lui",   ⟨0b0110111, "U", none⟩),
    ("auipc", ⟨0b0010111, "U", none⟩),
    ("jal",   ⟨0b1101111, "J", none⟩),
    ("jalr",  ⟨0b1100111, "I", none⟩),
    ("beq",   ⟨0b1100011, "B", none⟩),
    ("bne",   ⟨0b1100011, "B", none⟩),
    ("blt",   ⟨0b1100011, "B", none⟩),
    ("bge",   ⟨0b1100011, "B", none⟩),
    ("bltu",  ⟨0b1100011, "B", none⟩),
    ("bgeu",  ⟨0b1100011, "B", none⟩),
    ("sb",    ⟨0b0100011, "S", none⟩),
    ("sh",    ⟨0b0100011, "S", none⟩),
    ("sw",    ⟨0b0100011, "S", none⟩),
    ("addi",  ⟨0b0010011, "I", none⟩),
    ("slti",  ⟨0b0010011, "I", none⟩),
    ("sltiu", ⟨0b0010011, "I", none⟩),
    ("xori",  ⟨0b0010011, "I", none⟩),
    ("ori",   ⟨0b0010011, "I", none⟩),
    ("andi",  ⟨0b0010011, "I", none⟩),
    ("slli",  ⟨0b0010011, "I", some "shift"⟩),
    ("srli",  ⟨0b0010011, "I", some "shift"⟩),
    ("srai",  ⟨0b0010011, "I", some "shift"⟩),
    ("lb",    ⟨0b0000011, "I", some "load"⟩),
    ("lh",    ⟨0b0000011, "I", some "load"⟩),
    ("lw",    ⟨0b0000011, "I", some "load"⟩),
    ("lbu",   ⟨0b0000011, "I", some "load"⟩),
    ("lhu",   ⟨0b0000011, "I", some "load"⟩),
    ("add",   ⟨0b0110011, "R", none⟩),
    ("sub",   ⟨0b0110011, "R", none⟩),
    ("sll",   ⟨0b0110011, "R", none⟩),
    ("slt",   ⟨0b0110011, "R", none⟩),
    ("sltu",  ⟨0b0110011, "R", none⟩),
    ("xor",   ⟨0b0110011, "R", none⟩),
    ("srl",   ⟨0b0110011, "R", none⟩),
    ("sra",   ⟨0b0110011, "R", none⟩),
    ("or",    ⟨0b0110011, "R", none⟩),
    ("and",   ⟨0b0110011, "R", none⟩) ]

/-- `self.func3`. -/
def func3 : List (String × Nat) :=
  [ ("beq", 0b000), ("bne", 0b001), ("blt", 0b100), ("bge", 0b101),
    ("bltu", 0b110), ("bgeu", 0b111),
    ("lb", 0b000), ("lh", 0b001), ("lw", 0b010), ("lbu", 0b100), ("lhu", 0b101),
    ("sb", 0b000), ("sh", 0b001), ("sw", 0b010),
    ("jalr", 0b000), ("addi", 0b000), ("slti", 0b010), ("sltiu", 0b011),
    ("xori", 0b100), ("ori", 0b110), ("andi", 0b111),
    ("slli", 0b001), ("srli", 0b101), ("srai", 0b101),
    ("add", 0b000), ("sub", 0b000), ("sll", 0b001), ("slt", 0b010),
    ("sltu", 0b011), ("xor", 0b100), ("srl", 0b101), ("sra", 0b101),
    ("or", 0b110), ("and", 0b111) ]

/-- `self.func7`. -/
def func7 : List (String × Nat) :=
  [ ("slli", 0b0000000), ("srli", 0b0000000), ("srai", 0b0100000),
    ("add", 0b0000000), ("sub", 0b0100000), ("sll", 0b0000000),
    ("slt", 0b0000000), ("sltu", 0b0000000), ("xor", 0b0000000),
    ("srl", 0b0000000), ("sra", 0b0100000), ("or", 0b0000000),
    ("and", 0b0000000) ]

/-- `self.registers`: ABI names and numeric names. -/
def registers : List (String × Nat) :=
  [ ("zero", 0), ("ra", 1), ("sp", 2), ("gp", 3), ("tp", 4), ("t0", 5),
    ("t1", 6), ("t2", 7), ("s0", 8), ("s1", 9), ("a0", 10), ("a1", 11),
    ("a2", 12), ("a3", 13), ("a4", 14), ("a5", 15), ("a6", 16), ("a7", 17),
    ("s2", 18), ("s3", 19), ("s4", 20), ("s5", 21), ("s6", 22), ("s7", 23),
    ("s8", 24), ("s9", 25), ("s10", 26), ("s11", 27), ("t3", 28), ("t4", 29),
    ("t5", 30), ("t6", 31),
    ("x0", 0), ("x1", 1), ("x2", 2), ("x3", 3), ("x4", 4), ("x5", 5),
    ("x6", 6), ("x7", 7), ("x8", 8), ("x9", 9), ("x10", 10), ("x11", 11),
    ("x12", 12), ("x13", 13), ("x14", 14), ("x15", 15), ("x16", 16),
    ("x17", 17), ("x18", 18), ("x19", 19), ("x20", 20), ("x21", 21),
    ("x22", 22), ("x23", 23), ("x24", 24), ("x25", 25), ("x26", 26),
    ("x27", 27), ("x28", 28), ("x29", 29), ("x30", 30), ("x31", 31) ]

/-- `get_type`: `self.opcodes.get(mnemonic, {}).get("type", None)`. -/
def get_type (mnemonic : String) : Option String :=
  (List.lookup mnemonic opcodes).map (·.fmt)

/-- `self.opcodes[opcode].get("subtype", '') == s` at the call sites of
`encode_i_type` (the mnemonic is known to be present there). -/
def subtype_is (mnemonic s : String) : Bool :=
  ((List.lookup mnemonic opcodes).bind (·.subtype)) == some s

/-- ASCII `str.lower()` on one character. -/
def lowerChar (c : Char) : Char :=
  if 'A' ≤ c ∧ c ≤ 'Z' then Char.ofNat (c.toNat + 32) else c

/-- `str.lower()` (the argument strings here are ASCII). -/
def pyLower (s : String) : String := ⟨s.data.map lowerChar⟩

/-- `str.startswith(pre)`. -/
def pyStartsWith (s pre : String) : Bool := pre.data.isPrefixOf s.data

/-- `should_warn`. -/
def should_warn (flags : WarningFlags) (warning_type : String) : Bool :=
  let t := pyLower warning_type
  if flags.suppress_all then false
  else if t == "unused_label" then !flags.no_unused_label
  else if t == "immediate_range" then !flags.no_immediate_range
  else true

/-- The parts of `self` that `record_alert` and the encoders read:
warning flags, label table, `line_nums`, `current_line_index`. -/
structure Ctx where
  flags : WarningFlags
  labels : List (String × Nat)
  line_nums : List Nat
  cli : Nat
deriving DecidableEq, Repr

/-- `record_alert`.  Returns `ok none` when the alert is suppressed,
`ok (some a)` when it is recorded, and `error indexError` when
`self.line_nums[self.current_line_index]` is out of range. -/
def record_alert (c : Ctx) (alert_type message : String)
    (warning_type : Option String) : Except PyErr (Option Alert) :=
  let t := pyLower alert_type
  if t == "warning" &&
      (c.flags.suppress_all ||
       (warning_type == some "unused_label" && c.flags.no_unused_label) ||
       (warning_type == some "immediate_range" && c.flags.no_immediate_range)) then
    .ok none
  else
    match c.line_nums.get? c.cli with
    | some ln => .ok (some ⟨t, message, ln, warning_type⟩)
    | none => .error .indexError

/-! Numeric literal parsing, modelling `int(imm_str)` / `int(imm_str, 16)` /
`int(imm_str, 2)` on the literal shapes the assembler feeds them. -/

def decDigit? (ch : Char) : Option Nat :=
  if ch.isDigit then some (ch.toNat - 48) else none

def hexDigit? (ch : Char) : Option Nat :=
  if ch.isDigit then some (ch.toNat - 48)
  else if 'a' ≤ ch ∧ ch ≤ 'f' then some (ch.toNat - 87)
  else if 'A' ≤ ch ∧ ch ≤ 'F' then some (ch.toNat - 55)
  else none

def binDigit? (ch : Char) : Option Nat :=
  if ch == '0' then some 0 else if ch == '1' then some 1 else none

def parseDigits (f : Char → Option Nat) (base : Nat) : List Char → Option Nat
  | [] => none
  | cs =>
    cs.foldl
      (fun acc ch =>
        match acc, f ch with
        | some a, some d => some (a * base + d)
        | _, _ => none)
      (some 0)

/-- The literal decoding in `decode_immediate`: `0x` prefix means base 16,
`0b` prefix means base 2, otherwise decimal with an optional leading minus;
`none` models the `ValueError` of a malformed literal. -/
def pyInt (s : String) : Option Int :=
  if pyStartsWith s "0x" then (parseDigits hexDigit? 16 (s.data.drop 2)).map Int.ofNat
  else if pyStartsWith s "0b" then (parseDigits binDigit? 2 (s.data.drop 2)).map Int.ofNat
  else
    match s.data with
    | '-' :: rest => (parseDigits decDigit? 10 rest).map (fun n => -(n : Int))
    | cs => (parseDigits decDigit? 10 cs).map Int.ofNat

/-- `parse_offset`: the regex `(-?\d+)\(([a-zA-Z0-9]+)\)`, anchored at the
start of the operand (a `re.match`), returning the two groups. -/
def parse_offset (s : String) : Option (String × String) :=
  let cs := s.data
  let signed : Bool × List Char :=
    match cs with
    | '-' :: r => (true, r)
    | _ => (false, cs)
  let ds := signed.2.takeWhile (·.isDigit)
  let rest1 := signed.2.dropWhile (·.isDigit)
  if ds.isEmpty then none
  else
    match rest1 with
    | '(' :: cs3 =>
      let rs := cs3.takeWhile (·.isAlphanum)
      let rest2 := cs3.dropWhile (·.isAlphanum)
      if rs.isEmpty then none
      else
        match rest2 with
        | ')' :: _ =>
          some (⟨(if signed.1 then ['-'] else []) ++ ds⟩, ⟨rs⟩)
        | _ => none
    | _ => none

/-! Bit-manipulation helpers for the encoders.  Python's arithmetic right
shift on ints is a floor shift, and AND-ing with an all-ones mask
`2^w - 1` is the non-negative residue modulo `2^w`, for negative operands
too (two's complement). -/

/-- `(x >> lo) & (2^wd - 1)`. -/
def bfield (x : Int) (lo wd : Nat) : Nat :=
  ((Int.fdiv x (2 ^ lo)).emod (2 ^ wd)).toNat

/-- `x & (2^w - 1)`. -/
def maskLow (x : Int) (w : Nat) : Nat :=
  (x.emod (2 ^ w)).toNat

/-- The result of a helper that may record alerts, reference one label and
raise: its alerts in order of recording, the label it passed the
`if label not in self.referenced_labels` append (decided by the caller's
loop), and the produced value or the uncaught exception. -/
structure EncResult (α : Type) where
  alerts : List Alert
  refLab : Option String
  result : Except PyErr α
deriving Repr

/-- The range/alignment block of `decode_immediate`
(`if self.should_warn('immediate_range'): ...`).  The first condition is
transcribed with Python's operator precedence:
`type == "I" or (type == "S" and not (-2048 <= imm < 2048))`, so every
I-type immediate takes the warning branch.  Only the odd-J case raises. -/
def decodeWarnBlock (c : Ctx) (t : Option String) (imm : Int)
    (refLab : Option String) : EncResult Int :=
  if should_warn c.flags "immediate_range" then
    if t == some "I" || (t == some "S" && !(decide (-2048 ≤ imm ∧ imm < 2048))) then
      match record_alert c "warning"
          (s!"Immediate value {imm}, may be out of typical range (-2048 to 2047)")
          (some "immediate_range") with
      | .ok (some a) => ⟨[a], refLab, .ok imm⟩
      | .ok none => ⟨[], refLab, .ok imm⟩
      | .error e => ⟨[], refLab, .error e⟩
    else if t == some "B" && !(decide (-4096 ≤ imm ∧ imm < 4096)) then
      match record_alert c "warning"
          (s!"Immediate value {imm}, may be out of typical range (-4096 to 4095)")
          (some "immediate_range") with
      | .ok (some a) => ⟨[a], refLab, .ok imm⟩
      | .ok none => ⟨[], refLab, .ok imm⟩
      | .error e => ⟨[], refLab, .error e⟩
    else if t == some "J" && !(decide (-1048576 ≤ imm ∧ imm < 1048574)) then
      match record_alert c "warning"
          (s!"Immediate value {imm}, may be out of typical range (-1048576 to 1048574)")
          (some "immediate_range") with
      | .ok (some a) => ⟨[a], refLab, .ok imm⟩
      | .ok none => ⟨[], refLab, .ok imm⟩
      | .error e => ⟨[], refLab, .error e⟩
    else if t == some "J" && !(imm.emod 2 == 0) then
      match record_alert c "error"
          (s!"Jump offset value, {imm}, is not instruction aligned") none with
      | .ok (some a) => ⟨[a], refLab, .error .valueError⟩
      | .ok none => ⟨[], refLab, .error .valueError⟩
      | .error e => ⟨[], refLab, .error e⟩
    else if t == some "U" && !(decide (0 ≤ imm ∧ imm < 2 ^ 20)) then
      match record_alert c "warning"
          (s!"Upper mmediate value {imm}, is out of range")
          (some "immediate_range") with
      | .ok (some a) => ⟨[a], refLab, .ok imm⟩
      | .ok none => ⟨[], refLab, .ok imm⟩
      | .error e => ⟨[], refLab, .error e⟩
    else ⟨[], refLab, .ok imm⟩
  else ⟨[], refLab, .ok imm⟩

/-- `decode_immediate`.  For B/J formats the immediate is
`labels[label] - current_pc`; otherwise the textual literal is decoded.
The `refLab` component carries the label whose
`if label not in self.referenced_labels: append` the caller's loop
performs. -/
def decode_immediate (c : Ctx) (opcode : String) (imm_str : Option String)
    (label : Option String) (current_pc : Option Int) : EncResult Int :=
  let t := get_type opcode
  if t == some "B" || t == some "J" then
    match label, current_pc with
    | some lab, some pcv =>
      match List.lookup lab c.labels with
      | none =>
        match record_alert c "error" "Instruction references non-existent label" none with
        | .ok (some a) => ⟨[a], none, .error .valueError⟩
        | .ok none => ⟨[], none, .error .valueError⟩
        | .error e => ⟨[], none, .error e⟩
      | some addr =>
        decodeWarnBlock c t ((addr : Int) - pcv) (some lab)
    | _, _ =>
      match record_alert c "internal"
          "No label or pc provided for branch/jump instruction" none with
      | .ok (some a) => ⟨[a], none, .error .valueError⟩
      | .ok none => ⟨[], none, .error .valueError⟩
      | .error e => ⟨[], none, .error e⟩
  else
    match imm_str with
    | none =>
      match record_alert c "internal"
          "No immediate string passed to non-branch/jump insrtuction" none with
      | .ok (some a) => ⟨[a], none, .error .valueError⟩
      | .ok none => ⟨[], none, .error .valueError⟩
      | .error e => ⟨[], none, .error e⟩
    | some s =>
      match pyInt s with
      | none =>
        match record_alert c "error" "Invalid immediate value, '{imm_str}'" none with
        | .ok (some a) => ⟨[a], none, .error .valueError⟩
        | .ok none => ⟨[], none, .error .valueError⟩
        | .error e => ⟨[], none, .error e⟩
      | some imm => decodeWarnBlock c t imm none

/-- `validate_registers`: the call sites pass the keyword arguments
rd/rs1/rs2 in that order and this list holds the ones that are not `None`,
in the same order; the first unknown name records an error and raises. -/
def validate_registers (c : Ctx) : List String → List Alert × Except PyErr (List Nat)
  | [] => ([], .ok [])
  | n :: rest =>
    match List.lookup n registers with
    | some v =>
      match validate_registers c rest with
      | (as, .ok vs) => (as, .ok (v :: vs))
      | (as, .error e) => (as, .error e)
    | none =>
      match record_alert c "error" (s!"Invalid register name: {n}") none with
      | .ok (some a) => ([a], .error .valueError)
      | .ok none => ([], .error .valueError)
      | .error e => ([], .error e)

/-! The six format encoders.  Each transcribes the field packing of the
source; the Python `|` of the shifted fields is written as `+`, which is
equal because every summand below a shift is a masked field or a table
value strictly smaller than the next field's alignment (for `encode_u_type`
the low 12 bits of `imm << 12` are zero even for a negative or oversized
`imm`, so `| (rd << 7) | opcode` is again addition). -/

/-- `encode_r_type`.  `operands[0..2]` on a shorter list raises IndexError;
the funct/opcode table subscripts raise KeyError if absent. -/
def encode_r_type (c : Ctx) (opcode : String) (operands : List String) :
    EncResult Int :=
  match operands with
  | rd_str :: rs1_str :: rs2_str :: _ =>
    match validate_registers c [rd_str, rs1_str, rs2_str] with
    | (as, .error e) => ⟨as, none, .error e⟩
    | (as, .ok regs) =>
      match regs with
      | [rd, rs1, rs2] =>
        match List.lookup opcode func7, List.lookup opcode func3,
            List.lookup opcode opcodes with
        | some f7, some f3, some oi =>
          ⟨as, none, .ok ((f7 * 2 ^ 25 + rs2 * 2 ^ 20 + rs1 * 2 ^ 15 +
            f3 * 2 ^ 12 + rd * 2 ^ 7 + oi.opcode : Nat) : Int)⟩
        | _, _, _ => ⟨as, none, .error .keyError⟩
      | _ => ⟨as, none, .error .indexError⟩
  | _ => ⟨[], none, .error .indexError⟩

/-- The operand-shape selection of `encode_i_type` (the body of its
`try`).  A shape error records an alert, raises ValueError, which the
local `except` swallows; execution then falls through to
`validate_registers(rd_str, rs1_str)` whose argument names are unbound,
raising NameError.  Result: `(rd_str, rs1_str, imm_str)` or the alerts of
the failed shape check plus the NameError. -/
def iOperandShape (c : Ctx) (opcode : String) (operands : List String) :
    List Alert × Except PyErr (String × String × String) :=
  if opcode == "jalr" then
    match operands with
    | [rd_str, rs1_str, imm_str] => ([], .ok (rd_str, rs1_str, imm_str))
    | [rs1_str, imm_str] => ([], .ok ("ra", rs1_str, imm_str))
    | _ =>
      match record_alert c "error"
          (s!"Invalid operand count for jalr instruction: {operands.length}") none with
      | .ok (some a) => ([a], .error .nameError)
      | .ok none => ([], .error .nameError)
      | .error e => ([], .error e)
  else if subtype_is opcode "load" then
    match operands with
    | [rd_str, off_str] =>
      match parse_offset off_str with
      | some (imm_str, rs1_str) => ([], .ok (rd_str, rs1_str, imm_str))
      | none =>
        match record_alert c "error" "Load instruction format is invalid" none with
        | .ok (some a) => ([a], .error .nameError)
        | .ok none => ([], .error .nameError)
        | .error e => ([], .error e)
    | _ =>
      match record_alert c "error"
          (s!"Load instruction requires 2 operands, not {operands.length}") none with
      | .ok (some a) => ([a], .error .nameError)
      | .ok none => ([], .error .nameError)
      | .error e => ([], .error e)
  else
    match operands with
    | [rd_str, rs1_str, imm_str] => ([], .ok (rd_str, rs1_str, imm_str))
    | _ =>
      match record_alert c "error"
          "Immediate instruction format is invalid" none with
      | .ok (some a) => ([a], .error .nameError)
      | .ok none => ([], .error .nameError)
      | .error e => ([], .error e)

/-- `encode_i_type`.  In the shift branch an out-of-range shift amount
calls `self.record_alert("warning")` with a missing `message` argument:
that call raises TypeError at once, so no alert is recorded and the raise
of the next line is never reached. -/
def encode_i_type (c : Ctx) (opcode : String) (operands : List String) :
    EncResult Int :=
  match iOperandShape c opcode operands with
  | (as0, .error e) => ⟨as0, none, .error e⟩
  | (as0, .ok (rd_str, rs1_str, imm_str)) =>
    match validate_registers c [rd_str, rs1_str] with
    | (as1, .error e) => ⟨as0 ++ as1, none, .error e⟩
    | (as1, .ok regs) =>
      match regs with
      | [rd, rs1] =>
        match decode_immediate c opcode (some imm_str) none none with
        | ⟨as2, _, .error e⟩ => ⟨as0 ++ as1 ++ as2, none, .error e⟩
        | ⟨as2, _, .ok imm⟩ =>
          if subtype_is opcode "shift" then
            if !(decide (0 ≤ imm ∧ imm < 32)) then
              ⟨as0 ++ as1 ++ as2, none, .error .typeError⟩
            else
              match List.lookup opcode func7, List.lookup opcode func3,
                  List.lookup opcode opcodes with
              | some f7, some f3, some oi =>
                ⟨as0 ++ as1 ++ as2, none,
                  .ok (((f7 * 2 ^ 5 + maskLow imm 5) * 2 ^ 20 + rs1 * 2 ^ 15 +
                    f3 * 2 ^ 12 + rd * 2 ^ 7 + oi.opcode : Nat) : Int)⟩
              | _, _, _ => ⟨as0 ++ as1 ++ as2, none, .error .keyError⟩
          else
            match List.lookup opcode func3, List.lookup opcode opcodes with
            | some f3, some oi =>
              ⟨as0 ++ as1 ++ as2, none,
                .ok ((maskLow imm 12 * 2 ^ 20 + rs1 * 2 ^ 15 + f3 * 2 ^ 12 +
                  rd * 2 ^ 7 + oi.opcode : Nat) : Int)⟩
            | _, _ => ⟨as0 ++ as1 ++ as2, none, .error .keyError⟩
      | _ => ⟨as0 ++ as1, none, .error .indexError⟩

/-- `encode_s_type`. -/
def encode_s_type (c : Ctx) (opcode : String) (operands : List String) :
    EncResult Int :=
  match operands with
  | [rs2_str, off_str] =>
    match parse_offset off_str with
    | none =>
      match record_alert c "error"
          "Could not parse offset in save instruction" none with
      | .ok (some a) => ⟨[a], none, .error .valueError⟩
      | .ok none => ⟨[], none, .error .valueError⟩
      | .error e => ⟨[], none, .error e⟩
    | some (imm_str, rs1_str) =>
      match validate_registers c [rs1_str, rs2_str] with
      | (as1, .error e) => ⟨as1, none, .error e⟩
      | (as1, .ok regs) =>
        match regs with
        | [rs1, rs2] =>
          match decode_immediate c opcode (some imm_str) none none with
          | ⟨as2, _, .error e⟩ => ⟨as1 ++ as2, none, .error e⟩
          | ⟨as2, _, .ok imm⟩ =>
            match List.lookup opcode func3, List.lookup opcode opcodes with
            | some f3, some oi =>
              ⟨as1 ++ as2, none,
                .ok ((bfield imm 5 7 * 2 ^ 25 + rs2 * 2 ^ 20 + rs1 * 2 ^ 15 +
                  f3 * 2 ^ 12 + maskLow imm 5 * 2 ^ 7 + oi.opcode : Nat) : Int)⟩
            | _, _ => ⟨as1 ++ as2, none, .error .keyError⟩
        | _ => ⟨as1, none, .error .indexError⟩
  | _ =>
    match record_alert c "error"
        (s!"Save instruction requires format, number of operands: {operands.length}")
        none with
    | .ok (some a) => ⟨[a], none, .error .valueError⟩
    | .ok none => ⟨[], none, .error .valueError⟩
    | .error e => ⟨[], none, .error e⟩

/-- The B-format field packing of `encode_b_type` (its last two
statements), on the already-validated registers and the decoded
immediate. -/
def b_pack (rs1 rs2 f3 op : Nat) (imm : Int) : Nat :=
  bfield imm 12 1 * 2 ^ 31 + bfield imm 5 6 * 2 ^ 25 + rs2 * 2 ^ 20 +
    rs1 * 2 ^ 15 + f3 * 2 ^ 12 + bfield imm 1 4 * 2 ^ 8 +
    bfield imm 11 1 * 2 ^ 7 + op

/-- `encode_b_type`. -/
def encode_b_type (c : Ctx) (opcode : String) (operands : List String)
    (current_pc : Int) : EncResult Int :=
  match operands with
  | [rs1_str, rs2_str, label] =>
    match validate_registers c [rs1_str, rs2_str] with
    | (as1, .error e) => ⟨as1, none, .error e⟩
    | (as1, .ok regs) =>
      match regs with
      | [rs1, rs2] =>
        match decode_immediate c opcode none (some label) (some current_pc) with
        | ⟨as2, rl, .error e⟩ => ⟨as1 ++ as2, rl, .error e⟩
        | ⟨as2, rl, .ok imm⟩ =>
          match List.lookup opcode func3, List.lookup opcode opcodes with
          | some f3, some oi =>
            ⟨as1 ++ as2, rl, .ok ((b_pack rs1 rs2 f3 oi.opcode imm : Nat) : Int)⟩
          | _, _ => ⟨as1 ++ as2, rl, .error .keyError⟩
      | _ => ⟨as1, none, .error .indexError⟩
  | _ =>
    match record_alert c "error"
        (s!"Branch type instruction requires three operands, number of operands: {operands.length}")
        none with
    | .ok (some a) => ⟨[a], none, .error .valueError⟩
    | .ok none => ⟨[], none, .error .valueError⟩
    | .error e => ⟨[], none, .error e⟩

/-- The J-format field packing of `encode_j_type`.  The source masks
`imm_19_12` with `0x7F` (7 bits) although the field spans bits 19..12. -/
def j_pack (rd op : Nat) (imm : Int) : Nat :=
  bfield imm 20 1 * 2 ^ 31 + bfield imm 1 10 * 2 ^ 21 +
    bfield imm 11 1 * 2 ^ 20 + bfield imm 12 7 * 2 ^ 12 + rd * 2 ^ 7 + op

/-- `encode_j_type`. -/
def encode_j_type (c : Ctx) (opcode : String) (operands : List String)
    (current_pc : Int) : EncResult Int :=
  let shape : List Alert × Except PyErr (String × String) :=
    match operands with
    | [rd_str, label] => ([], .ok (rd_str, label))
    | [label] => ([], .ok ("ra", label))
    | _ =>
      match record_alert c "error"
          "J-type instruction requires one or two operands" none with
      | .ok (some a) => ([a], .error .valueError)
      | .ok none => ([], .error .valueError)
      | .error e => ([], .error e)
  match shape with
  | (as0, .error e) => ⟨as0, none, .error e⟩
  | (as0, .ok (rd_str, label)) =>
    match validate_registers c [rd_str] with
    | (as1, .error e) => ⟨as0 ++ as1, none, .error e⟩
    | (as1, .ok regs) =>
      match regs with
      | [rd] =>
        match decode_immediate c opcode none (some label) (some current_pc) with
        | ⟨as2, rl, .error e⟩ => ⟨as0 ++ as1 ++ as2, rl, .error e⟩
        | ⟨as2, rl, .ok imm⟩ =>
          match List.lookup opcode opcodes with
          | some oi =>
            ⟨as0 ++ as1 ++ as2, rl, .ok ((j_pack rd oi.opcode imm : Nat) : Int)⟩
          | none => ⟨as0 ++ as1 ++ as2, rl, .error .keyError⟩
      | _ => ⟨as0 ++ as1, none, .error .indexError⟩

/-- `encode_u_type`.  The immediate is packed unmasked:
`(imm << 12) | (rd << 7) | opcode`. -/
def encode_u_type (c : Ctx) (opcode : String) (operands : List String) :
    EncResult Int :=
  match operands with
  | [rd_str, imm_str] =>
    match validate_registers c [rd_str] with
    | (as1, .error e) => ⟨as1, none, .error e⟩
    | (as1, .ok regs) =>
      match regs with
      | [rd] =>
        match decode_immediate c opcode (some imm_str) none none with
        | ⟨as2, _, .error e⟩ => ⟨as1 ++ as2, none, .error e⟩
        | ⟨as2, _, .ok imm⟩ =>
          match List.lookup opcode opcodes with
          | some oi =>
            ⟨as1 ++ as2, none, .ok (imm * 2 ^ 12 + ((rd * 2 ^ 7 + oi.opcode : Nat) : Int))⟩
          | none => ⟨as1 ++ as2, none, .error .keyError⟩
      | _ => ⟨as1, none, .error .indexError⟩
  | _ =>
    match record_alert c "error"
        "Invalid operand count in U-type instruction" none with
    | .ok (some a) => ⟨[a], none, .error .valueError⟩
    | .ok none => ⟨[], none, .error .valueError⟩
    | .error e => ⟨[], none, .error e⟩

/-- `assemble_instruction`: dispatch on the format tag, with the whole
encoder call inside `try: ... except Exception:` — any exception is
swallowed and the shared `AssemblerResults` object is returned instead of
a word (and then appended to memory by the driver).  A format tag other
than the six (impossible with this opcode table) would fall off the match
and return Python's `None`; it is mapped to `resultsObj` as well since the
write loop treats both the same way (TypeError). -/
def assemble_instruction (c : Ctx) (mnemonic : String) (operands : List String)
    (current_pc : Int) : List Alert × Option String × MemWord :=
  let wrap : EncResult Int → List Alert × Option String × MemWord :=
    fun r =>
      match r.result with
      | .ok n => (r.alerts, r.refLab, .word n)
      | .error _ => (r.alerts, r.refLab, .resultsObj)
  match get_type mnemonic with
  | some "R" => wrap (encode_r_type c mnemonic operands)
  | some "I" => wrap (encode_i_type c mnemonic operands)
  | some "S" => wrap (encode_s_type c mnemonic operands)
  | some "B" => wrap (encode_b_type c mnemonic operands current_pc)
  | some "J" => wrap (encode_j_type c mnemonic operands current_pc)
  | some "U" => wrap (encode_u_type c mnemonic operands)
  | some _ => ([], none, .resultsObj)
  | none =>
    match record_alert c "error"
        (s!"Instruction '{mnemonic}' is not supported") none with
    | .ok (some a) => ([a], none, .resultsObj)
    | .ok none => ([], none, .resultsObj)
    | .error _ => ([], none, .resultsObj)

/-! ## The two-pass driver -/

/-- A raw source line after the per-line comment strip and whitespace trim
of `preprocessor`:
* `blank` — nothing left (the loop `continue`s before touching `pc` or
  `line_num`);
* `labelDef name trailing` — the line matches the label regex
  `^\s*([a-zA-Z0-9_\.]+)\s*:(.*)$`; the trailing text after the colon is
  discarded by the source;
* `instr mnemonic operands` — anything else, pre-split by
  `parse_instruction` into the lowercase mnemonic and the comma/whitespace
  separated operand tokens. -/
inductive SrcLine where
  | blank
  | labelDef (name : String) (trailing : String)
  | instr (mnemonic : String) (operands : List String)
deriving DecidableEq, Repr

/-- Python-dict insertion on an association list: an existing key keeps its
position and gets the new value, a new key is appended. -/
def dictInsert (l : List (String × Nat)) (k : String) (v : Nat) :
    List (String × Nat) :=
  if l.any (fun p => p.1 == k) then
    l.map (fun p => if p.1 == k then (k, v) else p)
  else l ++ [(k, v)]

structure PrepOut where
  labels : List (String × Nat)
  clean : List (String × List String)
  line_nums : List Nat
  pc : Nat
deriving DecidableEq, Repr

/-- The loop body of `preprocessor`.  The guard
`if label_match not in self.labels` compares the regex match object with
the dict keys (strings), so it is always true and every label definition
(re)binds the name; `pc` advances by 4 for every non-blank line, label
definitions included. -/
def prepGo (labels : List (String × Nat)) (clean : List (String × List String))
    (line_nums : List Nat) (pc line_num : Nat) :
    List SrcLine → PrepOut
  | [] => ⟨labels, clean, line_nums, pc⟩
  | .blank :: rest => prepGo labels clean line_nums pc line_num rest
  | .labelDef name _ :: rest =>
    prepGo (dictInsert labels name pc) clean line_nums (pc + 4) (line_num + 1) rest
  | .instr m ops :: rest =>
    prepGo labels (clean ++ [(m, ops)]) (line_nums ++ [line_num]) (pc + 4)
      (line_num + 1) rest

/-- `preprocessor`: first pass over the raw lines, starting at `pc = 0`,
`line_num = 1`, on the label table left by `reset_assembler` (empty). -/
def preprocessor (lines : List SrcLine) : PrepOut :=
  prepGo [] [] [] 0 1 lines

/-- `self.NOP`. -/
def NOP : Int := 0x00000013

/-- `self.MAX_INSTRUCTIONS`. -/
def MAX_INSTRUCTIONS : Nat := 1024

/-- The per-instance state an `assemble` call starts from and returns.
`reset_assembler` clears `labels`, `memory`, `line_nums` and `pc` (and the
`warnings` / `unused_labels` / `used_labels` cells, which nothing later
reads — `unused_labels` is consulted once while still empty), but does NOT
clear `referenced_labels`, `current_line_index`, or the shared
`AssemblerResults` (`results_success`, `results_alerts`). -/
structure AsmState where
  warning_flags : WarningFlags
  labels : List (String × Nat)
  referenced_labels : List String
  memory : List MemWord
  pc : Nat
  line_nums : List Nat
  current_line_index : Nat
  results_success : Bool
  results_alerts : List Alert
deriving DecidableEq, Repr

/-- `RV32IAssembler(warning_Flags)`: a freshly constructed instance. -/
def initState (flags : WarningFlags) : AsmState :=
  { warning_flags := flags, labels := [], referenced_labels := [],
    memory := [], pc := 0, line_nums := [], current_line_index := 1,
    results_success := false, results_alerts := [] }

/-- The pass-2 loop of `assemble`: for each cleaned line it sets
`current_line_index := index`, assembles the line at the current `pc`,
appends the produced word (or the caught-exception `resultsObj`) to
memory, merges the referenced label, and advances `pc` by 4 and `index`
by 1.  `assemble_instruction` never raises (it catches everything), so the
loop never aborts.  Returns (new alerts, final referenced list, appended
memory, final `current_line_index`, final `pc`). -/
structure LoopOut where
  alerts : List Alert
  refs : List String
  mem : List MemWord
  cli : Nat
  pc : Nat
deriving DecidableEq, Repr

def encodeLoop (flags : WarningFlags) (labels : List (String × Nat))
    (line_nums : List Nat) (idx pcv cli : Nat) (refs : List String) :
    List (String × List String) → LoopOut
  | [] => ⟨[], refs, [], cli, pcv⟩
  | (m, ops) :: rest =>
    let r := assemble_instruction ⟨flags, labels, line_nums, idx⟩ m ops (pcv : Int)
    let refs' :=
      match r.2.1 with
      | some lab => if refs.contains lab then refs else refs ++ [lab]
      | none => refs
    let o := encodeLoop flags labels line_nums (idx + 1) (pcv + 4) idx refs' rest
    ⟨r.1 ++ o.alerts, o.refs, r.2.2 :: o.mem, o.cli, o.pc⟩

/-- The unused-label loop of `assemble`: `self.unused_labels` is the empty
set here (freshly reset, never added to), so every key of the label table
is reported, with alert type `'unused_label'` (not `"warning"`, hence
never suppressed inside `record_alert`). -/
def unusedLoop (c : Ctx) : List (String × Nat) → Except PyErr (List Alert)
  | [] => .ok []
  | (lab, _) :: rest =>
    match record_alert c "unused_label"
        (s!"Label '{lab}' is defined but never used") none with
    | .ok (some a) =>
      match unusedLoop c rest with
      | .ok as => .ok (a :: as)
      | .error e => .error e
    | .ok none => unusedLoop c rest
    | .error e => .error e

/-! Output formatting: `f"{instr:08x}"` — lowercase hex, zero-padded to a
total width of 8 (for a negative int the sign counts toward the width). -/

def hexDigitChar (n : Nat) : Char :=
  Char.ofNat (if n < 10 then 48 + n else 87 + n)

/-- Hex digits of `n`, most significant first, via explicit fuel (one unit
per recursion step; `n` strictly decreases, so `n + 1` units suffice). -/
def rawHexAux : Nat → Nat → List Char
  | 0, _ => []
  | fuel + 1, n =>
    if n < 16 then [hexDigitChar n]
    else rawHexAux fuel (n / 16) ++ [hexDigitChar (n % 16)]

def rawHex (n : Nat) : List Char := rawHexAux (n + 1) n

/-- `f"{i:08x}"`. -/
def hex08 (i : Int) : String :=
  if i < 0 then
    ⟨'-' :: (List.replicate (7 - (rawHex i.natAbs).length) '0' ++ rawHex i.natAbs)⟩
  else
    ⟨List.replicate (8 - (rawHex i.toNat).length) '0' ++ rawHex i.toNat⟩

/-- The write loop of `assemble`: each word is written as one `hex08`
line; formatting a non-int (`resultsObj`) raises TypeError after the
preceding lines were already written. -/
def writeLoop : List MemWord → List String × Option PyErr
  | [] => ([], none)
  | .word n :: rest =>
    match writeLoop rest with
    | (ls, e) => (hex08 n :: ls, e)
  | .resultsObj :: _ => ([], some .typeError)

/-- The outcome of one `assemble` call: the instance state afterwards, the
lines written to the output stream, and the uncaught exception if the call
crashed instead of returning. -/
structure Outcome where
  state : AsmState
  output : List String
  crash : Option PyErr
deriving DecidableEq, Repr

/-- The tail of `assemble` after padding: optional unused-label reporting,
then the write loop, then `success := True`. -/
def assembleFinish (st : AsmState) : Outcome :=
  if should_warn st.warning_flags "unused_label" then
    match unusedLoop ⟨st.warning_flags, st.labels, st.line_nums,
        st.current_line_index⟩ st.labels with
    | .error e => { state := st, output := [], crash := some e }
    | .ok uas =>
      let st := { st with results_alerts := st.results_alerts ++ uas }
      match writeLoop st.memory with
      | (ls, some e) => { state := st, output := ls, crash := some e }
      | (ls, none) =>
        { state := { st with results_success := true }, output := ls, crash := none }
  else
    match writeLoop st.memory with
    | (ls, some e) => { state := st, output := ls, crash := some e }
    | (ls, none) =>
      { state := { st with results_success := true }, output := ls, crash := none }

/-- `assemble(input, output)`.  The capacity branch interpolates
`self.MAX_INSTRUCIONS` — a misspelling of `MAX_INSTRUCTIONS`, so building
the message raises AttributeError before `record_alert` can run and the
whole call crashes with no alert and no output. -/
def assemble (st0 : AsmState) (lines : List SrcLine) : Outcome :=
  let st1 := { st0 with labels := [], memory := [], line_nums := [], pc := 0 }
  let p := preprocessor lines
  let st2 := { st1 with labels := p.labels, line_nums := p.line_nums, pc := p.pc }
  if p.clean.length > MAX_INSTRUCTIONS then
    { state := st2, output := [], crash := some .attributeError }
  else
    let o := encodeLoop st2.warning_flags p.labels p.line_nums 0 0
        st2.current_line_index st2.referenced_labels p.clean
    let padded := o.mem ++ List.replicate (MAX_INSTRUCTIONS - o.mem.length) (.word NOP)
    assembleFinish
      { st2 with
        memory := padded
        pc := o.pc
        current_line_index := o.cli
        referenced_labels := o.refs
        results_alerts := st2.results_alerts ++ o.alerts }

/-! ## Observation functions on source programs -/

/-- Is the line non-blank? (Non-blank lines advance the pass-1 `pc`.) -/
def notBlank : SrcLine → Bool
  | .blank => false
  | _ => true

/-- The instruction token pairs of a line list, in order: exactly the
cleaned lines pass 1 hands to pass 2. -/
def instrToks : List SrcLine → List (String × List String)
  | [] => []
  | .instr m ops :: rest => (m, ops) :: instrToks rest
  | _ :: rest => instrToks rest

/-- Number of non-blank lines (pass-1 address units of 4 bytes). -/
def nbCount (ls : List SrcLine) : Nat := (ls.filter notBlank).length

/-- Number of instruction lines (pass-2 address units of 4 bytes). -/
def iCount (ls : List SrcLine) : Nat := (instrToks ls).length

/-- Is the line a label definition? -/
def isLabelLine : SrcLine → Bool
  | .labelDef _ _ => true
  | _ => false

/-- Number of label-definition lines. -/
def lCount (ls : List SrcLine) : Nat := (ls.filter isLabelLine).length

/-- Does the line define label `L`? -/
def definesL (L : String) : SrcLine → Bool
  | .labelDef n _ => n == L
  | _ => false

/-- `L` is defined nowhere in `ls`. -/
def noDef (L : String) (ls : List SrcLine) : Prop :=
  ∀ l ∈ ls, definesL L l = false

instance (L : String) (ls : List SrcLine) : Decidable (noDef L ls) := by
  unfold noDef; infer_instance

/-- The string a word is written as (`resultsObj` entries raise before
producing a line; the value here is irrelevant for them). -/
def wordHex : MemWord → String
  | .word n => hex08 n
  | .resultsObj => ""

def natBits (w lo wd : Nat) : Nat := w / 2 ^ lo % 2 ^ wd

def fieldOpcode (w : Nat) : Nat := natBits w 0 7

def fieldRd (w : Nat) : Nat := natBits w 7 5

def fieldF3 (w : Nat) : Nat := natBits w 12 3

def fieldRs1 (w : Nat) : Nat := natBits w 15 5

def fieldRs2 (w : Nat) : Nat := natBits w 20 5

def fieldF7 (w : Nat) : Nat := natBits w 25 7

/-- The I-immediate field, read back as a signed 12-bit value. -/
def fieldImmI (w : Nat) : Int :=
  if natBits w 20 12 < 2048 then (natBits w 20 12 : Int)
  else (natBits w 20 12 : Int) - 4096

/-- An instruction token that can only violate the I-type immediate range:
a general I-arithmetic mnemonic with valid registers and a parseable
immediate literal. -/
def benignTok (t : String × List String) : Prop :=
  (t.1 == "jalr") = false ∧ subtype_is t.1 "load" = false ∧
  subtype_is t.1 "shift" = false ∧ get_type t.1 = some "I" ∧
  (∃ f3v, List.lookup t.1 func3 = some f3v) ∧
  (∃ oi, List.lookup t.1 opcodes = some oi) ∧
  ∃ rdS rs1S immS, t.2 = [rdS, rs1S, immS] ∧
    (∃ rd, List.lookup rdS registers = some rd) ∧
    (∃ rs1, List.lookup rs1S registers = some rs1) ∧
    (∃ imm, pyInt immS = some imm)

/-- A source line of a program whose only possible violations are
out-of-range I-type immediates. -/
def benignLine : SrcLine → Prop
  | .blank => True
  | .labelDef _ _ => True
  | .instr m ops => benignTok (m, ops)

/-- The encoding-loop run an `assemble` call performs after pass 1. -/
def runO (st0 : AsmState) (lines : List SrcLine) : LoopOut :=
  encodeLoop st0.warning_flags (preprocessor lines).labels
    (preprocessor lines).line_nums 0 0 st0.current_line_index
    st0.referenced_labels (preprocessor lines).clean

/-- The state `assemble` hands to `assembleFinish` when the capacity check
passes. -/
def midState (st0 : AsmState) (lines : List SrcLine) : AsmState :=
  { warning_flags := st0.warning_flags
    labels := (preprocessor lines).labels
    referenced_labels := (runO st0 lines).refs
    memory := (runO st0 lines).mem ++
      List.replicate (MAX_INSTRUCTIONS - (runO st0 lines).mem.length) (.word NOP)
    pc := (runO st0 lines).pc
    line_nums := (preprocessor lines).line_nums
    current_line_index := (runO st0 lines).cli
    results_success := st0.results_success
    results_alerts := st0.results_alerts ++ (runO st0 lines).alerts }

/-- A program whose branch offset (6000 bytes) exceeds the 13-bit B range:
the distance is created by 1499 label-only lines, which advance the pass-1
address counter without adding instructions. -/
def farLines : List SrcLine :=
  .instr "beq" ["a0", "zero", "far"] ::
    (List.replicate 1499 (.labelDef "x" "") ++
      (.labelDef "far" "" :: [.instr "addi" ["a0", "a0", "1"]]))

/-- A four-line program: a label line, a forward `beq` to `skip`, the
`skip:` label line, and an `addi`.  Pass 1 counts the label-only lines
when advancing `pc`, so `skip` gets address 8 even though only one
instruction (the `beq` itself, at image byte 0) precedes it. -/
def progX : List SrcLine :=
  [SrcLine.labelDef "start" "",
   SrcLine.instr "beq" ["a0", "zero", "skip"],
   SrcLine.labelDef "skip" "",
   SrcLine.instr "addi" ["a0", "a0", "1"]]

/-! ## Helper lemmas: the label dictionary -/

theorem lookup_cons_pair (k k' : String) (v : Nat) (l : List (String × Nat)) :
    List.lookup k ((k', v) :: l) = if k = k' then some v else List.lookup k l := by
  by_cases h : k = k'
  · simp [List.lookup, h]
  · simp [List.lookup, h, beq_eq_false_iff_ne.mpr h]

theorem lookup_map_upd (l : List (String × Nat)) (k : String) (v : Nat) :
    List.lookup k (l.map (fun p => if p.1 == k then (k, v) else p)) =
      if l.any (fun p => p.1 == k) then some v else none := by
  induction l with
  | nil => simp [List.lookup]
  | cons p rest ih =>
    obtain ⟨a, b⟩ := p
    by_cases hp : a = k
    · simp [hp, lookup_cons_pair]
    · have hpb : ((a, b).1 == k) = false := beq_eq_false_iff_ne.mpr hp
      rw [List.map_cons, hpb, if_neg (by simp), lookup_cons_pair, List.any_cons, hpb]
      simp only [Bool.false_or, ih]
      rw [if_neg (Ne.symm hp)]

theorem lookup_map_upd_ne (l : List (String × Nat)) (k k' : String) (v : Nat)
    (h : k' ≠ k) :
    List.lookup k' (l.map (fun p => if p.1 == k then (k, v) else p)) =
      List.lookup k' l := by
  induction l with
  | nil => rfl
  | cons p rest ih =>
    obtain ⟨a, b⟩ := p
    by_cases hp : a = k
    · rw [List.map_cons, if_pos (by simp [hp]), lookup_cons_pair, lookup_cons_pair,
        if_neg h, if_neg (by simpa [hp] using h), ih]
    · rw [List.map_cons, if_neg (by simp [hp]), lookup_cons_pair, lookup_cons_pair, ih]

theorem lookup_append_single (l : List (String × Nat)) (k : String) (v : Nat)
    (h : l.any (fun p => p.1 == k) = false) :
    List.lookup k (l ++ [(k, v)]) = some v := by
  induction l with
  | nil => simp [lookup_cons_pair]
  | cons p rest ih =>
    obtain ⟨a, b⟩ := p
    simp only [List.any_cons, Bool.or_eq_false_iff] at h
    have hp : k ≠ a := fun he => by
      have := h.1
      simp [he] at this
    rw [List.cons_append, lookup_cons_pair, if_neg hp, ih h.2]

theorem lookup_append_single_ne (l : List (String × Nat)) (k k' : String) (v : Nat)
    (h : k' ≠ k) : List.lookup k' (l ++ [(k, v)]) = List.lookup k' l := by
  induction l with
  | nil => simp [List.lookup, beq_eq_false_iff_ne.mpr h]
  | cons p rest ih =>
    obtain ⟨a, b⟩ := p
    rw [List.cons_append, lookup_cons_pair, lookup_cons_pair, ih]

theorem lookup_dictInsert_self (l : List (String × Nat)) (k : String) (v : Nat) :
    List.lookup k (dictInsert l k v) = some v := by
  unfold dictInsert
  by_cases h : l.any (fun p => p.1 == k)
  · rw [if_pos h, lookup_map_upd, if_pos h]
  · simp only [Bool.not_eq_true] at h
    simp only [h, Bool.false_eq_true, if_false]
    exact lookup_append_single l k v h

theorem lookup_dictInsert_ne (l : List (String × Nat)) (k k' : String) (v : Nat)
    (h : k' ≠ k) : List.lookup k' (dictInsert l k v) = List.lookup k' l := by
  unfold dictInsert
  split
  · exact lookup_map_upd_ne l k k' v h
  · exact lookup_append_single_ne l k k' v h

theorem map_upd_id (l : List (String × Nat)) (k : String) (v : Nat)
    (h : l.any (fun p => p.1 == k) = false) :
    l.map (fun p => if p.1 == k then (k, v) else p) = l := by
  induction l with
  | nil => rfl
  | cons p rest ih =>
    simp only [List.any_cons, Bool.or_eq_false_iff] at h
    rw [List.map_cons, h.1]
    simp only [Bool.false_eq_true, if_false]
    rw [ih h.2]

theorem any_map_upd (l : List (String × Nat)) (k : String) (v : Nat) :
    (l.map (fun p => if p.1 == k then (k, v) else p)).any (fun p => p.1 == k) =
      l.any (fun p => p.1 == k) := by
  induction l with
  | nil => rfl
  | cons p rest ih =>
    obtain ⟨a, b⟩ := p
    by_cases hp : a = k
    · simp [hp]
    · have hpb : ((a, b).1 == k) = false := beq_eq_false_iff_ne.mpr hp
      rw [List.map_cons, hpb]
      simp only [Bool.false_eq_true, if_false]
      rw [List.any_cons, List.any_cons, hpb, ih]

theorem dictInsert_dictInsert (l : List (String × Nat)) (k : String) (v w : Nat) :
    dictInsert (dictInsert l k v) k w = dictInsert l k w := by
  unfold dictInsert
  by_cases h : l.any (fun p => p.1 == k)
  · simp only [h, if_true, any_map_upd, List.map_map]
    congr 1
    funext p
    by_cases hp : p.1 = k <;> simp [hp]
  · simp only [Bool.not_eq_true] at h
    have hmem : (l ++ [(k, v)]).any (fun p => p.1 == k) = true := by simp
    simp only [h, Bool.false_eq_true, if_false, hmem, if_true, List.map_append,
      map_upd_id l k w h]
    simp

/-! ## Helper lemmas: pass 1 -/

theorem nbCount_nil : nbCount [] = 0 := rfl

theorem nbCount_cons (l : SrcLine) (ls : List SrcLine) :
    nbCount (l :: ls) = (if notBlank l then 1 else 0) + nbCount ls := by
  unfold nbCount
  cases h : notBlank l <;> simp [List.filter, h, Nat.add_comm]

theorem prepGo_pc (ls : List SrcLine) : ∀ labels clean lns pc ln,
    (prepGo labels clean lns pc ln ls).pc = pc + 4 * nbCount ls := by
  induction ls with
  | nil => intro labels clean lns pc ln; simp [prepGo, nbCount_nil]
  | cons l rest ih =>
    intro labels clean lns pc ln
    cases l with
    | blank => simp [prepGo, ih, nbCount_cons, notBlank]
    | labelDef nm t =>
      simp [prepGo, ih, nbCount_cons, notBlank]
      ring
    | instr m ops =>
      simp [prepGo, ih, nbCount_cons, notBlank]
      ring

theorem prepGo_clean (ls : List SrcLine) : ∀ labels clean lns pc ln,
    (prepGo labels clean lns pc ln ls).clean = clean ++ instrToks ls := by
  induction ls with
  | nil => intro labels clean lns pc ln; simp [prepGo, instrToks]
  | cons l rest ih =>
    intro labels clean lns pc ln
    cases l with
    | blank => simp [prepGo, ih, instrToks]
    | labelDef nm t => simp [prepGo, ih, instrToks]
    | instr m ops => simp [prepGo, ih, instrToks]

theorem prepGo_labels_preserve (L : String) (ls : List SrcLine) (h : noDef L ls) :
    ∀ labels clean lns pc ln,
    List.lookup L (prepGo labels clean lns pc ln ls).labels = List.lookup L labels := by
  induction ls with
  | nil => intro labels clean lns pc ln; simp [prepGo]
  | cons l rest ih =>
    intro labels clean lns pc ln
    have hrest : noDef L rest := fun x hx => h x (List.mem_cons_of_mem _ hx)
    cases l with
    | blank => simp [prepGo, ih hrest]
    | labelDef nm t =>
      have hd : (nm == L) = false := h (.labelDef nm t) (List.mem_cons_self _ _)
      have hne : L ≠ nm := fun he => by simp [he] at hd
      simp [prepGo, ih hrest, lookup_dictInsert_ne _ _ _ _ hne]
    | instr m ops => simp [prepGo, ih hrest]

theorem prepGo_labels_split (L t : String) (xs ys : List SrcLine) (h : noDef L ys) :
    ∀ labels clean lns pc ln,
    List.lookup L (prepGo labels clean lns pc ln (xs ++ .labelDef L t :: ys)).labels
      = some (pc + 4 * nbCount xs) := by
  induction xs with
  | nil =>
    intro labels clean lns pc ln
    simp only [List.nil_append, prepGo, nbCount_nil, Nat.mul_zero, Nat.add_zero]
    rw [prepGo_labels_preserve L ys h, lookup_dictInsert_self]
  | cons l rest ih =>
    intro labels clean lns pc ln
    cases l with
    | blank =>
      rw [List.cons_append]
      show List.lookup L
        (prepGo labels clean lns pc ln (rest ++ .labelDef L t :: ys)).labels = _
      rw [ih, nbCount_cons, show notBlank SrcLine.blank = false from rfl,
        if_neg Bool.false_ne_true]
      exact congrArg some (by omega)
    | labelDef nm t' =>
      rw [List.cons_append]
      show List.lookup L
        (prepGo (dictInsert labels nm pc) clean lns (pc + 4) (ln + 1)
          (rest ++ .labelDef L t :: ys)).labels = _
      rw [ih, nbCount_cons, show notBlank (SrcLine.labelDef nm t') = true from rfl,
        if_pos rfl]
      exact congrArg some (by omega)
    | instr m ops =>
      rw [List.cons_append]
      show List.lookup L
        (prepGo labels (clean ++ [(m, ops)]) (lns ++ [ln]) (pc + 4) (ln + 1)
          (rest ++ .labelDef L t :: ys)).labels = _
      rw [ih, nbCount_cons, show notBlank (SrcLine.instr m ops) = true from rfl,
        if_pos rfl]
      exact congrArg some (by omega)

theorem prepGo_nil (labels : List (String × Nat))
    (clean : List (String × List String)) (lns : List Nat) (pc ln : Nat) :
    prepGo labels clean lns pc ln [] = ⟨labels, clean, lns, pc⟩ := rfl

theorem prepGo_cons_instr (labels : List (String × Nat))
    (clean : List (String × List String)) (lns : List Nat) (pc ln : Nat)
    (m : String) (ops : List String) (rest : List SrcLine) :
    prepGo labels clean lns pc ln (.instr m ops :: rest) =
      prepGo labels (clean ++ [(m, ops)]) (lns ++ [ln]) (pc + 4) (ln + 1) rest := rfl

theorem prepGo_cons_label (labels : List (String × Nat))
    (clean : List (String × List String)) (lns : List Nat) (pc ln : Nat)
    (nm t : String) (rest : List SrcLine) :
    prepGo labels clean lns pc ln (.labelDef nm t :: rest) =
      prepGo (dictInsert labels nm pc) clean lns (pc + 4) (ln + 1) rest := rfl

/-- Pass 1 over a block of `n + 1` copies of the same label-only line:
each copy rebinds the name, so only the last binding (at
`pc + 4 * n`) survives, and the address counter advances by 4 per copy. -/
theorem prepGo_replicate_label (n : Nat) (nm t : String) (rest : List SrcLine) :
    ∀ labels clean lns pc ln,
    prepGo labels clean lns pc ln (List.replicate (n + 1) (.labelDef nm t) ++ rest) =
      prepGo (dictInsert labels nm (pc + 4 * n)) clean lns (pc + 4 * (n + 1))
        (ln + (n + 1)) rest := by
  induction n with
  | zero =>
    intro labels clean lns pc ln
    simp [List.replicate, prepGo]
  | succ n ih =>
    intro labels clean lns pc ln
    rw [List.replicate_succ, List.cons_append]
    show prepGo (dictInsert labels nm pc) clean lns (pc + 4) (ln + 1)
        (List.replicate (n + 1) (.labelDef nm t) ++ rest) = _
    rw [ih, dictInsert_dictInsert]
    have e1 : pc + 4 + 4 * n = pc + 4 * (n + 1) := by omega
    have e2 : pc + 4 + 4 * (n + 1) = pc + 4 * (n + 1 + 1) := by omega
    have e3 : ln + 1 + (n + 1) = ln + (n + 1 + 1) := by omega
    rw [e1, e2, e3]

/-- Pass 1 over a block of `n` copies of the same instruction line. -/
theorem prepGo_replicate_instr (n : Nat) (m : String) (ops : List String)
    (rest : List SrcLine) :
    ∀ labels clean lns pc ln,
    prepGo labels clean lns pc ln (List.replicate n (.instr m ops) ++ rest) =
      prepGo labels (clean ++ List.replicate n (m, ops))
        (lns ++ List.range' ln n) (pc + 4 * n) (ln + n) rest := by
  induction n with
  | zero =>
    intro labels clean lns pc ln
    simp [List.replicate]
  | succ n ih =>
    intro labels clean lns pc ln
    rw [List.replicate_succ, List.cons_append]
    show prepGo labels (clean ++ [(m, ops)]) (lns ++ [ln]) (pc + 4) (ln + 1)
        (List.replicate n (.instr m ops) ++ rest) = _
    rw [ih]
    have h1 : clean ++ [(m, ops)] ++ List.replicate n (m, ops) =
        clean ++ List.replicate (n + 1) (m, ops) := by
      rw [List.append_assoc]
      congr 1
    have h2 : lns ++ [ln] ++ List.range' (ln + 1) n = lns ++ List.range' ln (n + 1) := by
      rw [List.append_assoc]
      congr 1
    rw [h1, h2]
    have e1 : pc + 4 + 4 * n = pc + 4 * (n + 1) := by omega
    have e2 : ln + 1 + n = ln + (n + 1) := by omega
    rw [e1, e2]

/-! ## Helper lemmas: pass 2 and output -/

/-- The alerts, memory image and final pc of the encoding loop do not
depend on the incoming `referenced_labels` or `current_line_index`, and on
a non-empty line list the final `current_line_index` does not either. -/
theorem encodeLoop_param_irrel (flags : WarningFlags)
    (labels : List (String × Nat)) (lns : List Nat) :
    ∀ (cl : List (String × List String)) (idx pcv cli cli' : Nat)
      (refs refs' : List String),
    (encodeLoop flags labels lns idx pcv cli refs cl).alerts =
      (encodeLoop flags labels lns idx pcv cli' refs' cl).alerts ∧
    (encodeLoop flags labels lns idx pcv cli refs cl).mem =
      (encodeLoop flags labels lns idx pcv cli' refs' cl).mem ∧
    (encodeLoop flags labels lns idx pcv cli refs cl).pc =
      (encodeLoop flags labels lns idx pcv cli' refs' cl).pc ∧
    (cl ≠ [] → (encodeLoop flags labels lns idx pcv cli refs cl).cli =
      (encodeLoop flags labels lns idx pcv cli' refs' cl).cli) := by
  intro cl
  induction cl with
  | nil =>
    intro idx pcv cli cli' refs refs'
    refine ⟨rfl, rfl, rfl, fun h => absurd rfl h⟩
  | cons hd rest ih =>
    intro idx pcv cli cli' refs refs'
    obtain ⟨m, ops⟩ := hd
    by_cases hr : rest = []
    · subst hr
      exact ⟨rfl, rfl, rfl, fun _ => rfl⟩
    · have h1 := ih (idx + 1) (pcv + 4) idx idx
        (match (assemble_instruction ⟨flags, labels, lns, idx⟩ m ops (pcv : Int)).2.1 with
          | some lab => if refs.contains lab then refs else refs ++ [lab]
          | none => refs)
        (match (assemble_instruction ⟨flags, labels, lns, idx⟩ m ops (pcv : Int)).2.1 with
          | some lab => if refs'.contains lab then refs' else refs' ++ [lab]
          | none => refs')
      simp only [encodeLoop]
      exact ⟨by rw [h1.1], by rw [h1.2.1], by rw [h1.2.2.1],
        fun _ => h1.2.2.2 hr⟩

theorem encodeLoop_mem_len (flags : WarningFlags)
    (labels : List (String × Nat)) (lns : List Nat) :
    ∀ (cl : List (String × List String)) (idx pcv cli : Nat) (refs : List String),
    (encodeLoop flags labels lns idx pcv cli refs cl).mem.length = cl.length := by
  intro cl
  induction cl with
  | nil => intro idx pcv cli refs; rfl
  | cons hd rest ih =>
    intro idx pcv cli refs
    obtain ⟨m, ops⟩ := hd
    simp only [encodeLoop, List.length_cons]
    rw [ih]

/-- The memory word produced for the cleaned line at index `as.length` is
the one `assemble_instruction` yields at `current_line_index = idx +
as.length` and `pc = pcv + 4 * as.length`. -/
theorem encodeLoop_mem_split (flags : WarningFlags)
    (labels : List (String × Nat)) (lns : List Nat) (m : String)
    (ops : List String) (bs : List (String × List String)) :
    ∀ (as : List (String × List String)) (idx pcv cli : Nat) (refs : List String),
    (encodeLoop flags labels lns idx pcv cli refs
        (as ++ (m, ops) :: bs)).mem.get? as.length =
      some (assemble_instruction ⟨flags, labels, lns, idx + as.length⟩ m ops
        ((pcv + 4 * as.length : Nat) : Int)).2.2 := by
  intro as
  induction as with
  | nil =>
    intro idx pcv cli refs
    simp only [List.nil_append, encodeLoop, List.length_nil, List.get?_cons_zero,
      Nat.add_zero, Nat.mul_zero]
  | cons a rest ih =>
    intro idx pcv cli refs
    obtain ⟨m', ops'⟩ := a
    simp only [List.cons_append, encodeLoop, List.length_cons, List.get?_cons_succ,
      List.append_eq]
    rw [ih]
    have e1 : idx + 1 + rest.length = idx + (rest.length + 1) := by omega
    have e2 : pcv + 4 + 4 * rest.length = pcv + 4 * (rest.length + 1) := by omega
    rw [e1, e2]

theorem writeLoop_words (mem : List MemWord)
    (h : ∀ w ∈ mem, ∃ n, w = .word n) :
    writeLoop mem = (mem.map wordHex, none) := by
  induction mem with
  | nil => rfl
  | cons w rest ih =>
    obtain ⟨n, hn⟩ := h w (List.mem_cons_self _ _)
    subst hn
    have := ih (fun w hw => h w (List.mem_cons_of_mem _ hw))
    simp only [writeLoop, this, List.map_cons, wordHex]

theorem writeLoop_none_inv (mem : List MemWord)
    (h : (writeLoop mem).2 = none) :
    (∀ w ∈ mem, ∃ n, w = .word n) ∧ (writeLoop mem).1 = mem.map wordHex := by
  induction mem with
  | nil => exact ⟨fun w hw => absurd hw (List.not_mem_nil w), rfl⟩
  | cons w rest ih =>
    cases w with
    | word n =>
      have h2 : (writeLoop rest).2 = none := by
        by_cases hc : (writeLoop rest).2 = none
        · exact hc
        · exfalso
          revert h
          simp only [writeLoop]
          cases hw : writeLoop rest with
          | mk ls e =>
            cases e with
            | none => simp [hw] at hc
            | some pe => simp
      obtain ⟨hall, hmap⟩ := ih h2
      constructor
      · intro w hw
        rcases List.mem_cons.mp hw with h1 | h1
        · exact ⟨n, h1⟩
        · exact hall w h1
      · simp only [writeLoop, List.map_cons, wordHex]
        cases hw : writeLoop rest with
        | mk ls e =>
          simp only [hw] at hmap
          simp [hmap]
    | resultsObj =>
      exfalso
      simp [writeLoop] at h

theorem record_alert_non_warning (c : Ctx) (ty msg : String) (wt : Option String)
    (hty : (pyLower ty == "warning") = false)
    (hcli : c.cli < c.line_nums.length) :
    record_alert c ty msg wt =
      .ok (some ⟨pyLower ty, msg, c.line_nums.get ⟨c.cli, hcli⟩, wt⟩) := by
  simp only [record_alert, hty, Bool.false_and, Bool.false_eq_true, if_false,
    List.get?_eq_get hcli]

theorem record_alert_warning (c : Ctx) (msg : String) (wt : Option String)
    (hcli : c.cli < c.line_nums.length) :
    record_alert c "warning" msg wt =
      if (c.flags.suppress_all || (wt == some "unused_label" && c.flags.no_unused_label)
          || (wt == some "immediate_range" && c.flags.no_immediate_range)) = true
      then .ok none
      else .ok (some ⟨"warning", msg, c.line_nums.get ⟨c.cli, hcli⟩, wt⟩) := by
  simp only [record_alert, show (pyLower "warning" == "warning") = true from rfl,
    Bool.true_and, List.get?_eq_get hcli]
  split
  · rfl
  · rfl

theorem unusedLoop_ok (c : Ctx) (hcli : c.cli < c.line_nums.length) :
    ∀ labs : List (String × Nat), ∃ as : List Alert,
      unusedLoop c labs = .ok as ∧ as.length = labs.length ∧
      ∀ a ∈ as, a.type = "unused_label" := by
  intro labs
  induction labs with
  | nil => exact ⟨[], rfl, rfl, fun a ha => absurd ha (List.not_mem_nil a)⟩
  | cons p rest ih =>
    obtain ⟨lab, addr⟩ := p
    obtain ⟨as, has, hlen, hty⟩ := ih
    refine ⟨⟨"unused_label", s!"Label '{lab}' is defined but never used",
      c.line_nums.get ⟨c.cli, hcli⟩, none⟩ :: as, ?_, by simp [hlen], ?_⟩
    · unfold unusedLoop
      rw [record_alert_non_warning c "unused_label"
        (s!"Label '{lab}' is defined but never used") none rfl hcli, has]
      rfl
    · intro a ha
      rcases List.mem_cons.mp ha with h1 | h1
      · rw [h1]
      · exact hty a h1

/-! ## Helper lemmas: table bounds and bit fields -/

theorem lookup_mem {α β : Type} [BEq α] [LawfulBEq α] (k : α)
    (l : List (α × β)) (v : β) (h : List.lookup k l = some v) : (k, v) ∈ l := by
  induction l with
  | nil => exact absurd h (by simp [List.lookup])
  | cons p rest ih =>
    obtain ⟨a, b⟩ := p
    by_cases hk : k = a
    · subst hk
      simp only [List.lookup, beq_self_eq_true] at h
      cases h
      exact List.mem_cons_self _ _
    · have hb : (k == a) = false := beq_eq_false_iff_ne.mpr hk
      simp only [List.lookup, hb] at h
      exact List.mem_cons_of_mem _ (ih h)

theorem registers_lt (s : String) (r : Nat)
    (h : List.lookup s registers = some r) : r < 32 := by
  have hm := lookup_mem s registers r h
  have : ∀ p ∈ registers, p.2 < 32 := by decide
  exact this (s, r) hm

theorem func3_lt (m : String) (f : Nat)
    (h : List.lookup m func3 = some f) : f < 8 := by
  have hm := lookup_mem m func3 f h
  have : ∀ p ∈ func3, p.2 < 8 := by decide
  exact this (m, f) hm

theorem func7_lt (m : String) (f : Nat)
    (h : List.lookup m func7 = some f) : f < 128 := by
  have hm := lookup_mem m func7 f h
  have : ∀ p ∈ func7, p.2 < 128 := by decide
  exact this (m, f) hm

theorem opcodes_lt (m : String) (oi : OpInfo)
    (h : List.lookup m opcodes = some oi) : oi.opcode < 128 := by
  have hm := lookup_mem m opcodes oi h
  have : ∀ p ∈ opcodes, p.2.opcode < 128 := by decide
  exact this (m, oi) hm

/-- `bfield` in terms of Euclidean division (the divisor is positive, so
floor and Euclidean division agree). -/
theorem bfield_eq (x : Int) (lo wd : Nat) :
    bfield x lo wd = (x / 2 ^ lo % 2 ^ wd).toNat := by
  unfold bfield
  rw [Int.fdiv_eq_ediv]
  · rfl
  · positivity

theorem maskLow_eq (x : Int) (w : Nat) : maskLow x w = (x % 2 ^ w).toNat := rfl

theorem maskLow_lt (x : Int) (w : Nat) : maskLow x w < 2 ^ w := by
  rw [maskLow_eq]
  have hc : ((2 : Int) ^ w) = ((2 ^ w : Nat) : Int) := by push_cast; ring
  have h2 : x % 2 ^ w < 2 ^ w := Int.emod_lt_of_pos x (by positivity)
  have h3 : (0 : Int) ≤ x % 2 ^ w := Int.emod_nonneg x (by positivity)
  rw [hc] at h2
  omega

/-! ## Observation: the bit fields of an encoded word, per the layouts of
spec section 4.6. -/

theorem pack_fields_r (f7v rs2 rs1 f3v rd op : Nat)
    (h7 : f7v < 128) (h2 : rs2 < 32) (h1 : rs1 < 32) (h3 : f3v < 8)
    (hd : rd < 32) (ho : op < 128) :
    fieldOpcode (f7v * 2 ^ 25 + rs2 * 2 ^ 20 + rs1 * 2 ^ 15 + f3v * 2 ^ 12 +
        rd * 2 ^ 7 + op) = op ∧
    fieldRd (f7v * 2 ^ 25 + rs2 * 2 ^ 20 + rs1 * 2 ^ 15 + f3v * 2 ^ 12 +
        rd * 2 ^ 7 + op) = rd ∧
    fieldF3 (f7v * 2 ^ 25 + rs2 * 2 ^ 20 + rs1 * 2 ^ 15 + f3v * 2 ^ 12 +
        rd * 2 ^ 7 + op) = f3v ∧
    fieldRs1 (f7v * 2 ^ 25 + rs2 * 2 ^ 20 + rs1 * 2 ^ 15 + f3v * 2 ^ 12 +
        rd * 2 ^ 7 + op) = rs1 ∧
    fieldRs2 (f7v * 2 ^ 25 + rs2 * 2 ^ 20 + rs1 * 2 ^ 15 + f3v * 2 ^ 12 +
        rd * 2 ^ 7 + op) = rs2 ∧
    fieldF7 (f7v * 2 ^ 25 + rs2 * 2 ^ 20 + rs1 * 2 ^ 15 + f3v * 2 ^ 12 +
        rd * 2 ^ 7 + op) = f7v := by
  unfold fieldOpcode fieldRd fieldF3 fieldRs1 fieldRs2 fieldF7 natBits
  norm_num
  omega

theorem pack_fields_i (immf rs1 f3v rd op : Nat)
    (hi : immf < 4096) (h1 : rs1 < 32) (h3 : f3v < 8) (hd : rd < 32)
    (ho : op < 128) :
    fieldOpcode (immf * 2 ^ 20 + rs1 * 2 ^ 15 + f3v * 2 ^ 12 + rd * 2 ^ 7 + op)
        = op ∧
    fieldRd (immf * 2 ^ 20 + rs1 * 2 ^ 15 + f3v * 2 ^ 12 + rd * 2 ^ 7 + op)
        = rd ∧
    fieldF3 (immf * 2 ^ 20 + rs1 * 2 ^ 15 + f3v * 2 ^ 12 + rd * 2 ^ 7 + op)
        = f3v ∧
    fieldRs1 (immf * 2 ^ 20 + rs1 * 2 ^ 15 + f3v * 2 ^ 12 + rd * 2 ^ 7 + op)
        = rs1 ∧
    natBits (immf * 2 ^ 20 + rs1 * 2 ^ 15 + f3v * 2 ^ 12 + rd * 2 ^ 7 + op)
        20 12 = immf := by
  unfold fieldOpcode fieldRd fieldF3 fieldRs1 natBits
  norm_num
  omega

/-! ## Encoder evaluation lemmas -/

theorem validate_registers_ok3 (c : Ctx) (rdS rs1S rs2S : String)
    (rd rs1 rs2 : Nat)
    (hrd : List.lookup rdS registers = some rd)
    (hrs1 : List.lookup rs1S registers = some rs1)
    (hrs2 : List.lookup rs2S registers = some rs2) :
    validate_registers c [rdS, rs1S, rs2S] = ([], .ok [rd, rs1, rs2]) := by
  simp only [validate_registers, hrd, hrs1, hrs2]

theorem validate_registers_ok2 (c : Ctx) (aS bS : String) (a b : Nat)
    (ha : List.lookup aS registers = some a)
    (hb : List.lookup bS registers = some b) :
    validate_registers c [aS, bS] = ([], .ok [a, b]) := by
  simp only [validate_registers, ha, hb]

theorem validate_registers_ok1 (c : Ctx) (aS : String) (a : Nat)
    (ha : List.lookup aS registers = some a) :
    validate_registers c [aS] = ([], .ok [a]) := by
  simp only [validate_registers, ha]

theorem encode_r_general (c : Ctx) (m rdS rs1S rs2S : String)
    (rd rs1 rs2 f7v f3v : Nat) (oi : OpInfo)
    (hrd : List.lookup rdS registers = some rd)
    (hrs1 : List.lookup rs1S registers = some rs1)
    (hrs2 : List.lookup rs2S registers = some rs2)
    (h7 : List.lookup m func7 = some f7v)
    (h3 : List.lookup m func3 = some f3v)
    (hoi : List.lookup m opcodes = some oi) :
    encode_r_type c m [rdS, rs1S, rs2S] =
      ⟨[], none, .ok ((f7v * 2 ^ 25 + rs2 * 2 ^ 20 + rs1 * 2 ^ 15 +
        f3v * 2 ^ 12 + rd * 2 ^ 7 + oi.opcode : Nat) : Int)⟩ := by
  simp only [encode_r_type,
    validate_registers_ok3 c rdS rs1S rs2S rd rs1 rs2 hrd hrs1 hrs2, h7, h3, hoi]

/-- The range block of `decode_immediate` on an I-format immediate: it
always takes the first branch of the chain (regardless of the value of the
immediate, because of the `or` precedence), records at most one
`immediate_range` warning, and returns the immediate unchanged. -/
theorem warnBlock_i_ok (c : Ctx) (imm : Int) (rl : Option String)
    (hcli : c.cli < c.line_nums.length) :
    ∃ as : List Alert, decodeWarnBlock c (some "I") imm rl = ⟨as, rl, .ok imm⟩ ∧
      ∀ a ∈ as, a.type = "warning" ∧ a.warning_type = some "immediate_range" := by
  unfold decodeWarnBlock
  split
  · rw [if_pos (show (((some "I" : Option String) == some "I") ||
        (((some "I" : Option String) == some "S") &&
          !(decide (-2048 ≤ imm ∧ imm < 2048)))) = true from by
        rw [show ((some "I" : Option String) == some "I") = true from rfl,
          Bool.true_or])]
    rw [record_alert_warning c _ (some "immediate_range") hcli]
    simp only [show ((some "immediate_range" : Option String) ==
        some "unused_label") = false from rfl,
      show ((some "immediate_range" : Option String) ==
        some "immediate_range") = true from rfl,
      Bool.false_and, Bool.true_and, Bool.or_false]
    by_cases hsup : (c.flags.suppress_all || c.flags.no_immediate_range) = true
    · rw [if_pos hsup]
      exact ⟨[], rfl, fun a ha => absurd ha (List.not_mem_nil a)⟩
    · rw [if_neg hsup]
      refine ⟨[⟨"warning", _, c.line_nums.get ⟨c.cli, hcli⟩,
        some "immediate_range"⟩], rfl, ?_⟩
      intro a ha
      rcases List.mem_cons.mp ha with h | h
      · rw [h]
        exact ⟨rfl, rfl⟩
      · exact absurd h (List.not_mem_nil a)
  · exact ⟨[], rfl, fun a ha => absurd ha (List.not_mem_nil a)⟩

theorem decode_i_ok (c : Ctx) (m s : String) (imm : Int)
    (hm : get_type m = some "I") (hs : pyInt s = some imm)
    (hcli : c.cli < c.line_nums.length) :
    ∃ as : List Alert,
      decode_immediate c m (some s) none none = ⟨as, none, .ok imm⟩ ∧
      ∀ a ∈ as, a.type = "warning" ∧ a.warning_type = some "immediate_range" := by
  unfold decode_immediate
  rw [hm]
  rw [if_neg (show ¬ (((some "I" : Option String) == some "B") ||
      ((some "I" : Option String) == some "J")) = true from by decide)]
  simp only [hs]
  exact warnBlock_i_ok c imm none hcli

theorem encode_i_general (c : Ctx) (m rdS rs1S immS : String)
    (rd rs1 : Nat) (imm : Int) (f3v : Nat) (oi : OpInfo)
    (hjal : (m == "jalr") = false)
    (hload : subtype_is m "load" = false)
    (hshift : subtype_is m "shift" = false)
    (hmI : get_type m = some "I")
    (h3 : List.lookup m func3 = some f3v)
    (hoi : List.lookup m opcodes = some oi)
    (hrd : List.lookup rdS registers = some rd)
    (hrs1 : List.lookup rs1S registers = some rs1)
    (himm : pyInt immS = some imm)
    (hcli : c.cli < c.line_nums.length) :
    ∃ as : List Alert,
      encode_i_type c m [rdS, rs1S, immS] =
        ⟨as, none, .ok ((maskLow imm 12 * 2 ^ 20 + rs1 * 2 ^ 15 +
          f3v * 2 ^ 12 + rd * 2 ^ 7 + oi.opcode : Nat) : Int)⟩ ∧
      ∀ a ∈ as, a.type = "warning" ∧ a.warning_type = some "immediate_range" := by
  obtain ⟨as2, hdec, hty⟩ := decode_i_ok c m immS imm hmI himm hcli
  have hshape : iOperandShape c m [rdS, rs1S, immS] =
      ([], .ok (rdS, rs1S, immS)) := by
    unfold iOperandShape
    rw [if_neg (by rw [hjal]; exact Bool.false_ne_true),
      if_neg (by rw [hload]; exact Bool.false_ne_true)]
  refine ⟨as2, ?_, hty⟩
  simp only [encode_i_type, hshape,
    validate_registers_ok2 c rdS rs1S rd rs1 hrd hrs1, hdec, hshift,
    Bool.false_eq_true, if_false, h3, hoi]
  simp

/-! ## Claim theorems -/

/-- C4: for the R-type and I-arithmetic mnemonics, given valid register
operands and (for I-type) an in-range immediate, extracting the bit fields
of the encoded 32-bit word per the layouts of spec section 4.6 recovers the
original opcode, funct3, funct7 (where applicable), rd, rs1, and
rs2/immediate; in particular the pipeline encodes `addi a0, zero, 5` to
the word 0x00500513. -/
theorem c4_r_i_roundtrip :
    (∀ (c : Ctx) (m rdS rs1S rs2S : String) (rd rs1 rs2 f7v f3v : Nat)
        (oi : OpInfo),
      List.lookup rdS registers = some rd →
      List.lookup rs1S registers = some rs1 →
      List.lookup rs2S registers = some rs2 →
      List.lookup m func7 = some f7v →
      List.lookup m func3 = some f3v →
      List.lookup m opcodes = some oi →
      ∃ w : Nat, encode_r_type c m [rdS, rs1S, rs2S] = ⟨[], none, .ok (w : Int)⟩ ∧
        fieldOpcode w = oi.opcode ∧ fieldF3 w = f3v ∧ fieldF7 w = f7v ∧
        fieldRd w = rd ∧ fieldRs1 w = rs1 ∧ fieldRs2 w = rs2) ∧
    (∀ (c : Ctx) (m rdS rs1S immS : String) (rd rs1 : Nat) (imm : Int)
        (f3v : Nat) (oi : OpInfo),
      (m == "jalr") = false → subtype_is m "load" = false →
      subtype_is m "shift" = false → get_type m = some "I" →
      List.lookup m func3 = some f3v → List.lookup m opcodes = some oi →
      List.lookup rdS registers = some rd →
      List.lookup rs1S registers = some rs1 →
      pyInt immS = some imm → c.cli < c.line_nums.length →
      -2048 ≤ imm → imm < 2048 →
      ∃ (as : List Alert) (w : Nat),
        encode_i_type c m [rdS, rs1S, immS] = ⟨as, none, .ok (w : Int)⟩ ∧
        fieldOpcode w = oi.opcode ∧ fieldF3 w = f3v ∧ fieldRd w = rd ∧
        fieldRs1 w = rs1 ∧ fieldImmI w = imm) ∧
    (assemble (initState {}) [.instr "addi" ["a0", "zero", "5"]]).state.memory.get? 0
      = some (.word 0x00500513) := by
  refine ⟨?_, ?_, ?_⟩
  · intro c m rdS rs1S rs2S rd rs1 rs2 f7v f3v oi hrd hrs1 hrs2 h7 h3 hoi
    refine ⟨f7v * 2 ^ 25 + rs2 * 2 ^ 20 + rs1 * 2 ^ 15 + f3v * 2 ^ 12 +
      rd * 2 ^ 7 + oi.opcode,
      encode_r_general c m rdS rs1S rs2S rd rs1 rs2 f7v f3v oi
        hrd hrs1 hrs2 h7 h3 hoi, ?_⟩
    have hp := pack_fields_r f7v rs2 rs1 f3v rd oi.opcode
      (func7_lt m f7v h7) (registers_lt rs2S rs2 hrs2) (registers_lt rs1S rs1 hrs1)
      (func3_lt m f3v h3) (registers_lt rdS rd hrd) (opcodes_lt m oi hoi)
    exact ⟨hp.1, hp.2.2.1, hp.2.2.2.2.2, hp.2.1, hp.2.2.2.1, hp.2.2.2.2.1⟩
  · intro c m rdS rs1S immS rd rs1 imm f3v oi hjal hload hshift hmI h3 hoi
      hrd hrs1 himm hcli hlo hhi
    obtain ⟨as, henc, _⟩ := encode_i_general c m rdS rs1S immS rd rs1 imm f3v oi
      hjal hload hshift hmI h3 hoi hrd hrs1 himm hcli
    refine ⟨as, maskLow imm 12 * 2 ^ 20 + rs1 * 2 ^ 15 + f3v * 2 ^ 12 +
      rd * 2 ^ 7 + oi.opcode, henc, ?_⟩
    have hp := pack_fields_i (maskLow imm 12) rs1 f3v rd oi.opcode
      (maskLow_lt imm 12) (registers_lt rs1S rs1 hrs1) (func3_lt m f3v h3)
      (registers_lt rdS rd hrd) (opcodes_lt m oi hoi)
    refine ⟨hp.1, hp.2.2.1, hp.2.1, hp.2.2.2.1, ?_⟩
    unfold fieldImmI
    rw [hp.2.2.2.2, maskLow_eq]
    have e1 : (0 : Int) ≤ imm % 2 ^ 12 := Int.emod_nonneg imm (by positivity)
    have e2 : imm % 2 ^ 12 < 2 ^ 12 := Int.emod_lt_of_pos imm (by positivity)
    have e3 : imm % 2 ^ 12 = imm % 4096 := by norm_num
    split <;> omega
  · rfl

/-- Witness for C4 at concrete inputs: `add a0, a1, a2` and
`addi a0, zero, 5`. -/
theorem c4_witness :
    (∃ w : Nat, encode_r_type ⟨{}, [], [1], 0⟩ "add" ["a0", "a1", "a2"] =
        ⟨[], none, .ok (w : Int)⟩ ∧
      fieldOpcode w = (⟨0b0110011, "R", none⟩ : OpInfo).opcode ∧ fieldF3 w = 0 ∧
      fieldF7 w = 0 ∧ fieldRd w = 10 ∧ fieldRs1 w = 11 ∧ fieldRs2 w = 12) ∧
    (∃ (as : List Alert) (w : Nat),
      encode_i_type ⟨{}, [], [1], 0⟩ "addi" ["a0", "zero", "5"] =
        ⟨as, none, .ok (w : Int)⟩ ∧
      fieldOpcode w = (⟨0b0010011, "I", none⟩ : OpInfo).opcode ∧ fieldF3 w = 0 ∧
      fieldRd w = 10 ∧ fieldRs1 w = 0 ∧ fieldImmI w = 5) :=
  ⟨c4_r_i_roundtrip.1 ⟨{}, [], [1], 0⟩ "add" "a0" "a1" "a2" 10 11 12 0 0
      ⟨0b0110011, "R", none⟩ rfl rfl rfl rfl rfl rfl,
    c4_r_i_roundtrip.2.1 ⟨{}, [], [1], 0⟩ "addi" "a0" "zero" "5" 10 0 5 0
      ⟨0b0010011, "I", none⟩ rfl rfl rfl rfl rfl rfl rfl rfl rfl (by decide)
      (by decide) (by decide)⟩

/-- C3 (code-bug evaluation): with default flags, the in-range immediate 5
of `addi a0, zero, 5` still gets an `immediate_range` warning recorded —
the condition `type == "I" or type == "S" and not (-2048 <= imm < 2048)`
parses as `type == "I" or (...)`, so every I-type immediate warns — while
the spec says a warning is recorded only outside -2048..2047.  Encoding
still proceeds and produces the correct word. -/
theorem c3_inrange_imm_warns :
    ((-2048 : Int) ≤ 5 ∧ (5 : Int) < 2048) ∧
    (assemble (initState {})
      [.instr "addi" ["a0", "zero", "5"]]).state.results_alerts.map
        (fun a => (a.type, a.warning_type)) =
      [("warning", some "immediate_range")] ∧
    (assemble (initState {})
      [.instr "addi" ["a0", "zero", "5"]]).state.results_success = true ∧
    (assemble (initState {})
      [.instr "addi" ["a0", "zero", "5"]]).state.memory.get? 0 =
      some (.word 0x00500513) := by
  exact ⟨by decide, rfl, rfl, rfl⟩

/-! ## C10 infrastructure: suppressed runs of benign I-arithmetic programs -/

theorem should_warn_suppress_all (flags : WarningFlags)
    (hsup : flags.suppress_all = true) (wt : String) :
    should_warn flags wt = false := by
  simp [should_warn, hsup]

theorem warnBlock_suppressed (c : Ctx) (t : Option String) (imm : Int)
    (rl : Option String) (hsup : c.flags.suppress_all = true) :
    decodeWarnBlock c t imm rl = ⟨[], rl, .ok imm⟩ := by
  unfold decodeWarnBlock
  rw [if_neg (by rw [should_warn_suppress_all c.flags hsup]; exact Bool.false_ne_true)]

theorem decode_i_suppressed (c : Ctx) (m s : String) (imm : Int)
    (hm : get_type m = some "I") (hs : pyInt s = some imm)
    (hsup : c.flags.suppress_all = true) :
    decode_immediate c m (some s) none none = ⟨[], none, .ok imm⟩ := by
  unfold decode_immediate
  rw [hm]
  rw [if_neg (show ¬ (((some "I" : Option String) == some "B") ||
      ((some "I" : Option String) == some "J")) = true from by decide)]
  simp only [hs]
  exact warnBlock_suppressed c (some "I") imm none hsup

theorem encode_i_suppressed (c : Ctx) (m rdS rs1S immS : String)
    (rd rs1 : Nat) (imm : Int) (f3v : Nat) (oi : OpInfo)
    (hjal : (m == "jalr") = false)
    (hload : subtype_is m "load" = false)
    (hshift : subtype_is m "shift" = false)
    (hmI : get_type m = some "I")
    (h3 : List.lookup m func3 = some f3v)
    (hoi : List.lookup m opcodes = some oi)
    (hrd : List.lookup rdS registers = some rd)
    (hrs1 : List.lookup rs1S registers = some rs1)
    (himm : pyInt immS = some imm)
    (hsup : c.flags.suppress_all = true) :
    encode_i_type c m [rdS, rs1S, immS] =
      ⟨[], none, .ok ((maskLow imm 12 * 2 ^ 20 + rs1 * 2 ^ 15 +
        f3v * 2 ^ 12 + rd * 2 ^ 7 + oi.opcode : Nat) : Int)⟩ := by
  have hshape : iOperandShape c m [rdS, rs1S, immS] =
      ([], .ok (rdS, rs1S, immS)) := by
    unfold iOperandShape
    rw [if_neg (by rw [hjal]; exact Bool.false_ne_true),
      if_neg (by rw [hload]; exact Bool.false_ne_true)]
  simp only [encode_i_type, hshape,
    validate_registers_ok2 c rdS rs1S rd rs1 hrd hrs1,
    decode_i_suppressed c m immS imm hmI himm hsup, hshift,
    Bool.false_eq_true, if_false, h3, hoi]
  simp

theorem assemble_instruction_benign (c : Ctx) (m : String) (ops : List String)
    (pc : Int) (hb : benignTok (m, ops)) (hsup : c.flags.suppress_all = true) :
    ∃ n, assemble_instruction c m ops pc = ([], none, .word n) := by
  obtain ⟨hjal, hload, hshift, hmI, ⟨f3v, h3⟩, ⟨oi, hoi⟩,
    rdS, rs1S, immS, hops, ⟨rd, hrd⟩, ⟨rs1, hrs1⟩, ⟨imm, himm⟩⟩ := hb
  simp only at hops
  subst hops
  refine ⟨((maskLow imm 12 * 2 ^ 20 + rs1 * 2 ^ 15 +
    f3v * 2 ^ 12 + rd * 2 ^ 7 + oi.opcode : Nat) : Int), ?_⟩
  unfold assemble_instruction
  rw [hmI]
  rw [encode_i_suppressed c m rdS rs1S immS rd rs1 imm f3v oi
    hjal hload hshift hmI h3 hoi hrd hrs1 himm hsup]
  rfl

theorem encodeLoop_benign (flags : WarningFlags) (labels : List (String × Nat))
    (lns : List Nat) (hsup : flags.suppress_all = true) :
    ∀ (cl : List (String × List String)) (idx pcv cli : Nat) (refs : List String),
    (∀ t ∈ cl, benignTok t) →
    (encodeLoop flags labels lns idx pcv cli refs cl).alerts = [] ∧
    (∀ w ∈ (encodeLoop flags labels lns idx pcv cli refs cl).mem,
      ∃ n, w = .word n) := by
  intro cl
  induction cl with
  | nil =>
    intro idx pcv cli refs _
    exact ⟨rfl, fun w hw => absurd hw (List.not_mem_nil w)⟩
  | cons hd rest ih =>
    intro idx pcv cli refs hb
    obtain ⟨m, ops⟩ := hd
    obtain ⟨n, hn⟩ := assemble_instruction_benign ⟨flags, labels, lns, idx⟩ m ops
      (pcv : Int) (hb (m, ops) (List.mem_cons_self _ _)) hsup
    have hrest := fun t ht => hb t (List.mem_cons_of_mem _ ht)
    simp only [encodeLoop, hn]
    obtain ⟨ha, hw⟩ := ih (idx + 1) (pcv + 4) idx refs hrest
    constructor
    · simp [ha]
    · intro w hw2
      rcases List.mem_cons.mp hw2 with h | h
      · exact ⟨n, h⟩
      · exact hw w h

theorem assembleFinish_no_unused (st : AsmState)
    (hsw : should_warn st.warning_flags "unused_label" = false)
    (hw : ∀ w ∈ st.memory, ∃ n, w = .word n) :
    assembleFinish st = ⟨{ st with results_success := true },
      st.memory.map wordHex, none⟩ := by
  unfold assembleFinish
  rw [if_neg (by rw [hsw]; exact Bool.false_ne_true), writeLoop_words st.memory hw]

theorem instrToks_mem (ls : List SrcLine) :
    ∀ t ∈ instrToks ls, SrcLine.instr t.1 t.2 ∈ ls := by
  induction ls with
  | nil => intro t ht; exact absurd ht (List.not_mem_nil t)
  | cons l rest ih =>
    intro t ht
    cases l with
    | blank => exact List.mem_cons_of_mem _ (ih t ht)
    | labelDef nm tr => exact List.mem_cons_of_mem _ (ih t ht)
    | instr m ops =>
      rcases List.mem_cons.mp ht with h | h
      · rw [h]
        exact List.mem_cons_self _ _
      · exact List.mem_cons_of_mem _ (ih t h)

theorem preprocessor_clean (lines : List SrcLine) :
    (preprocessor lines).clean = instrToks lines := by
  unfold preprocessor
  rw [prepGo_clean, List.nil_append]

/-! ## Characterising one `assemble` call -/

theorem assemble_eq_finish (st0 : AsmState) (lines : List SrcLine)
    (hcap : (preprocessor lines).clean.length ≤ MAX_INSTRUCTIONS) :
    assemble st0 lines = assembleFinish (midState st0 lines) := by
  unfold assemble midState runO
  rw [if_neg (by omega)]

theorem assemble_eq_capacity (st0 : AsmState) (lines : List SrcLine)
    (hcap : MAX_INSTRUCTIONS < (preprocessor lines).clean.length) :
    assemble st0 lines =
      ⟨{ st0 with
          labels := (preprocessor lines).labels
          memory := []
          line_nums := (preprocessor lines).line_nums
          pc := (preprocessor lines).pc },
        [], some .attributeError⟩ := by
  unfold assemble
  rw [if_pos (by omega)]

/-- C10: with `suppress_all` enabled, every program whose only possible
violations are out-of-range I-type immediates (any I-arithmetic lines with
valid registers and parseable immediate literals, plus labels and blanks)
assembles successfully and the returned alert list is empty. -/
theorem c10_suppress_all_silent (flags : WarningFlags) (lines : List SrcLine)
    (hsup : flags.suppress_all = true)
    (hb : ∀ l ∈ lines, benignLine l)
    (hcap : iCount lines ≤ 1024) :
    (assemble (initState flags) lines).crash = none ∧
    (assemble (initState flags) lines).state.results_success = true ∧
    (assemble (initState flags) lines).state.results_alerts = [] := by
  have hclean : (preprocessor lines).clean = instrToks lines :=
    preprocessor_clean lines
  have hcap2 : (preprocessor lines).clean.length ≤ MAX_INSTRUCTIONS := by
    rw [hclean]
    unfold iCount at hcap
    unfold MAX_INSTRUCTIONS
    omega
  have hbt : ∀ t ∈ (preprocessor lines).clean, benignTok t := by
    rw [hclean]
    intro t ht
    have hmem := instrToks_mem lines t ht
    have hbl := hb _ hmem
    exact hbl
  obtain ⟨hal, hwords⟩ := encodeLoop_benign flags (preprocessor lines).labels
    (preprocessor lines).line_nums hsup (preprocessor lines).clean 0 0
    (initState flags).current_line_index (initState flags).referenced_labels hbt
  have hwmem : ∀ w ∈ (midState (initState flags) lines).memory, ∃ n, w = .word n := by
    intro w hw
    rcases List.mem_append.mp hw with h | h
    · exact hwords w h
    · exact ⟨NOP, List.eq_of_mem_replicate h⟩
  have hsw : should_warn (midState (initState flags) lines).warning_flags
      "unused_label" = false := should_warn_suppress_all _ hsup _
  rw [assemble_eq_finish _ _ hcap2,
    assembleFinish_no_unused _ hsw hwmem]
  refine ⟨rfl, rfl, ?_⟩
  show (midState (initState flags) lines).results_alerts = []
  unfold midState
  simp only [initState, List.nil_append]
  exact hal

/-- Witness for C10: `addi t0, t0, 5000` under `suppress_all`. -/
theorem c10_witness :
    (∀ l ∈ [SrcLine.instr "addi" ["t0", "t0", "5000"]], benignLine l) ∧
    iCount [SrcLine.instr "addi" ["t0", "t0", "5000"]] ≤ 1024 ∧
    ((assemble (initState { suppress_all := true })
        [.instr "addi" ["t0", "t0", "5000"]]).crash = none ∧
      (assemble (initState { suppress_all := true })
        [.instr "addi" ["t0", "t0", "5000"]]).state.results_success = true ∧
      (assemble (initState { suppress_all := true })
        [.instr "addi" ["t0", "t0", "5000"]]).state.results_alerts = []) := by
  have hb : ∀ l ∈ [SrcLine.instr "addi" ["t0", "t0", "5000"]], benignLine l := by
    intro l hl
    rcases List.mem_singleton.mp hl with rfl
    exact ⟨rfl, rfl, rfl, rfl, ⟨0, rfl⟩, ⟨⟨0b0010011, "I", none⟩, rfl⟩,
      "t0", "t0", "5000", rfl, ⟨5, rfl⟩, ⟨5, rfl⟩, ⟨5000, rfl⟩⟩
  exact ⟨hb, by decide, c10_suppress_all_silent { suppress_all := true }
    [.instr "addi" ["t0", "t0", "5000"]] rfl hb (by decide)⟩

/-- C8 counterexample: with `error_on_warning` enabled and no suppression,
an immediate-range warning (`addi t0, t0, 5000`) is NOT escalated: the run
succeeds, nothing aborts, and the single alert is recorded with type
"warning". -/
theorem c8_counterexample :
    (initState { error_on_warning := true }).warning_flags.error_on_warning
        = true ∧
    (assemble (initState { error_on_warning := true })
      [.instr "addi" ["t0", "t0", "5000"]]).state.results_success = true ∧
    (assemble (initState { error_on_warning := true })
      [.instr "addi" ["t0", "t0", "5000"]]).crash = none ∧
    (assemble (initState { error_on_warning := true })
      [.instr "addi" ["t0", "t0", "5000"]]).state.results_alerts.map
        (fun a => a.type) = ["warning"] :=
  ⟨rfl, rfl, rfl, rfl⟩

/-- C8 amended: `record_alert` never consults `error_on_warning` — its
result is unchanged by that flag; a suppressed warning is dropped entirely
(`ok none`), and an unsuppressed warning is recorded with severity
"warning", never escalated to an error. -/
theorem c8_amended (flags : WarningFlags) (b : Bool)
    (labels : List (String × Nat)) (lns : List Nat) (cli : Nat)
    (msg : String) (wt : Option String) (hcli : cli < lns.length) :
    record_alert ⟨{ flags with error_on_warning := b }, labels, lns, cli⟩
        "warning" msg wt =
      record_alert ⟨flags, labels, lns, cli⟩ "warning" msg wt ∧
    ((flags.suppress_all = true ∨
        (wt = some "unused_label" ∧ flags.no_unused_label = true) ∨
        (wt = some "immediate_range" ∧ flags.no_immediate_range = true)) →
      record_alert ⟨flags, labels, lns, cli⟩ "warning" msg wt = .ok none) ∧
    (∀ a : Alert,
      record_alert ⟨flags, labels, lns, cli⟩ "warning" msg wt = .ok (some a) →
      a.type = "warning") := by
  refine ⟨rfl, ?_, ?_⟩
  · intro hdisj
    rw [record_alert_warning ⟨flags, labels, lns, cli⟩ msg wt hcli, if_pos ?_]
    rcases hdisj with h | ⟨hw, h⟩ | ⟨hw, h⟩
    · simp [h]
    · simp [hw, h]
    · simp [hw, h]
  · intro a h
    rw [record_alert_warning ⟨flags, labels, lns, cli⟩ msg wt hcli] at h
    by_cases hc : ((⟨flags, labels, lns, cli⟩ : Ctx).flags.suppress_all ||
        (wt == some "unused_label" &&
          (⟨flags, labels, lns, cli⟩ : Ctx).flags.no_unused_label) ||
        (wt == some "immediate_range" &&
          (⟨flags, labels, lns, cli⟩ : Ctx).flags.no_immediate_range)) = true
    · rw [if_pos hc] at h
      exact absurd h (by simp)
    · rw [if_neg hc] at h
      simp only [Except.ok.injEq, Option.some.injEq] at h
      rw [← h]

/-- Witness for the C8 amended theorem at a concrete context. -/
theorem c8_amended_witness :
    (0 : Nat) < [1].length ∧
    (record_alert ⟨{ error_on_warning := true }, [], [1], 0⟩
        "warning" "m" (some "immediate_range") =
      record_alert ⟨{}, [], [1], 0⟩ "warning" "m" (some "immediate_range") ∧
    ((({} : WarningFlags).suppress_all = true ∨
        (some "immediate_range" = some "unused_label" ∧
          ({} : WarningFlags).no_unused_label = true) ∨
        (some "immediate_range" = some "immediate_range" ∧
          ({} : WarningFlags).no_immediate_range = true)) →
      record_alert ⟨{}, [], [1], 0⟩ "warning" "m" (some "immediate_range")
        = .ok none) ∧
    (∀ a : Alert,
      record_alert ⟨{}, [], [1], 0⟩ "warning" "m" (some "immediate_range")
        = .ok (some a) → a.type = "warning")) :=
  ⟨by decide,
    c8_amended {} true [] [1] 0 "m" (some "immediate_range") (by decide)⟩

/-- C6 counterexample: a program defining `dup:` twice is accepted
silently — assembly succeeds, no alert of type "error" (and no
DuplicateLabel anywhere), and the name is rebound to the second
definition's address 8.  (The source guard `if label_match not in
self.labels` tests the regex match object, which is never a dict key.) -/
theorem c6_counterexample :
    (assemble (initState {})
      [.labelDef "dup" "", .instr "addi" ["a0", "a0", "1"],
       .labelDef "dup" "", .instr "addi" ["a0", "a0", "2"]]).state.results_success
        = true ∧
    (assemble (initState {})
      [.labelDef "dup" "", .instr "addi" ["a0", "a0", "1"],
       .labelDef "dup" "", .instr "addi" ["a0", "a0", "2"]]).crash = none ∧
    List.lookup "dup" (assemble (initState {})
      [.labelDef "dup" "", .instr "addi" ["a0", "a0", "1"],
       .labelDef "dup" "", .instr "addi" ["a0", "a0", "2"]]).state.labels
        = some 8 ∧
    (assemble (initState {})
      [.labelDef "dup" "", .instr "addi" ["a0", "a0", "1"],
       .labelDef "dup" "", .instr "addi" ["a0", "a0", "2"]]).state.results_alerts.map
        (fun a => a.type) = ["warning", "warning", "unused_label"] :=
  ⟨rfl, rfl, rfl, rfl⟩

/-- C6 amended: a second definition of the same label name is silently
accepted and rebinds the name: after pass 1 the table maps the name to the
byte address of the textually last definition (here the second one, at
`4 * nbCount` of everything before it); no alert is recorded during
preprocessing. -/
theorem c6_amended (xs ms ys : List SrcLine) (L t t' : String)
    (hy : noDef L ys) :
    List.lookup L (preprocessor
      ((xs ++ SrcLine.labelDef L t :: ms) ++ SrcLine.labelDef L t' :: ys)).labels =
      some (4 * nbCount (xs ++ SrcLine.labelDef L t :: ms)) := by
  unfold preprocessor
  rw [prepGo_labels_split L t' (xs ++ .labelDef L t :: ms) ys hy]
  exact congrArg some (by omega)

/-- Witness for the C6 amended theorem: two bare definitions of `dup`. -/
theorem c6_amended_witness :
    noDef "dup" [] ∧
    List.lookup "dup" (preprocessor
      (([] ++ SrcLine.labelDef "dup" "" :: []) ++
        SrcLine.labelDef "dup" "x" :: [])).labels =
      some (4 * nbCount ([] ++ SrcLine.labelDef "dup" "" :: [])) :=
  ⟨fun l hl => absurd hl (List.not_mem_nil l),
    c6_amended [] [] [] "dup" "" "x"
      (fun l hl => absurd hl (List.not_mem_nil l))⟩

/-! ## C9 infrastructure -/

/-- `assembleFinish` reads only the flags, label table, line numbers,
current line index and memory: two states agreeing there produce the same
output, the same crash status, leave memory and labels untouched, and
append the same alert suffix to their respective alert lists. -/
theorem assembleFinish_congr (s1 s2 : AsmState)
    (hf : s1.warning_flags = s2.warning_flags)
    (hl : s1.labels = s2.labels)
    (hn : s1.line_nums = s2.line_nums)
    (hc : s1.current_line_index = s2.current_line_index)
    (hm : s1.memory = s2.memory) :
    (assembleFinish s1).output = (assembleFinish s2).output ∧
    (assembleFinish s1).crash = (assembleFinish s2).crash ∧
    (assembleFinish s1).state.memory = s1.memory ∧
    (assembleFinish s2).state.memory = s2.memory ∧
    (assembleFinish s1).state.labels = s1.labels ∧
    (assembleFinish s2).state.labels = s2.labels ∧
    ∃ suffix : List Alert,
      (assembleFinish s1).state.results_alerts = s1.results_alerts ++ suffix ∧
      (assembleFinish s2).state.results_alerts = s2.results_alerts ++ suffix := by
  unfold assembleFinish
  rw [hf, hl, hn, hc, hm]
  by_cases hsw : should_warn s2.warning_flags "unused_label" = true
  · rw [if_pos hsw, if_pos hsw]
    cases hu : unusedLoop ⟨s2.warning_flags, s2.labels, s2.line_nums,
        s2.current_line_index⟩ s2.labels with
    | error e => exact ⟨rfl, rfl, hm, rfl, hl, rfl, [], by simp, by simp⟩
    | ok uas =>
      dsimp only
      cases hw : writeLoop s2.memory with
      | mk ls e =>
        cases e with
        | none => exact ⟨rfl, rfl, rfl, rfl, rfl, rfl, uas, rfl, rfl⟩
        | some pe => exact ⟨rfl, rfl, rfl, rfl, rfl, rfl, uas, rfl, rfl⟩
  · rw [if_neg hsw, if_neg hsw]
    cases hw : writeLoop s2.memory with
    | mk ls e =>
      cases e with
      | none => exact ⟨rfl, rfl, rfl, rfl, rfl, rfl, [], by simp, by simp⟩
      | some pe => exact ⟨rfl, rfl, hm, rfl, hl, rfl, [], by simp, by simp⟩

/-- C9 amended: per-run state that `reset_assembler` clears (labels,
memory, line numbers, pc) cannot leak between calls — a call's output,
crash status, memory image and label table are those of the same call on a
fresh instance — but the shared `AssemblerResults` is NOT reset: the alert
list after the call is the caller's old alert list followed by the fresh
run's alerts. -/
theorem c9_amended (st0 : AsmState) (lines : List SrcLine)
    (hne : (preprocessor lines).clean ≠ []) :
    (assemble st0 lines).output =
      (assemble (initState st0.warning_flags) lines).output ∧
    (assemble st0 lines).crash =
      (assemble (initState st0.warning_flags) lines).crash ∧
    (assemble st0 lines).state.memory =
      (assemble (initState st0.warning_flags) lines).state.memory ∧
    (assemble st0 lines).state.labels =
      (assemble (initState st0.warning_flags) lines).state.labels ∧
    (assemble st0 lines).state.results_alerts =
      st0.results_alerts ++
        (assemble (initState st0.warning_flags) lines).state.results_alerts := by
  by_cases hcap : (preprocessor lines).clean.length ≤ MAX_INSTRUCTIONS
  · have hirr := encodeLoop_param_irrel st0.warning_flags
      (preprocessor lines).labels (preprocessor lines).line_nums
      (preprocessor lines).clean 0 0 st0.current_line_index
      (initState st0.warning_flags).current_line_index
      st0.referenced_labels (initState st0.warning_flags).referenced_labels
    have hoa : (runO st0 lines).alerts =
        (runO (initState st0.warning_flags) lines).alerts := hirr.1
    have hom : (runO st0 lines).mem =
        (runO (initState st0.warning_flags) lines).mem := hirr.2.1
    have hoc : (runO st0 lines).cli =
        (runO (initState st0.warning_flags) lines).cli := hirr.2.2.2 hne
    have hfin := assembleFinish_congr (midState st0 lines)
      (midState (initState st0.warning_flags) lines)
      rfl rfl rfl (by unfold midState; exact hoc)
      (by unfold midState; rw [hom])
    rw [assemble_eq_finish st0 lines hcap,
      assemble_eq_finish (initState st0.warning_flags) lines hcap]
    obtain ⟨h1, h2, h3, h4, h5, h6, suffix, h7, h8⟩ := hfin
    refine ⟨h1, h2, ?_, ?_, ?_⟩
    · rw [h3, h4]
      unfold midState
      rw [hom]
    · rw [h5, h6]
      rfl
    · rw [h7, h8]
      show (midState st0 lines).results_alerts ++ suffix =
        st0.results_alerts ++ ((midState (initState st0.warning_flags)
          lines).results_alerts ++ suffix)
      unfold midState
      simp only [initState, List.nil_append, List.append_assoc, hoa]
  · have hcap2 : MAX_INSTRUCTIONS < (preprocessor lines).clean.length := by omega
    rw [assemble_eq_capacity st0 lines hcap2,
      assemble_eq_capacity (initState st0.warning_flags) lines hcap2]
    exact ⟨rfl, rfl, rfl, rfl, by simp [initState]⟩

/-- C9 counterexample: assembling `addi t0, t0, 5000` twice on the same
instance — the first call records one warning, and the second call's
result holds both that stale alert and its own (two alerts), so the
second result is not limited to alerts produced during the second call. -/
theorem c9_counterexample :
    (assemble (initState {})
      [.instr "addi" ["t0", "t0", "5000"]]).state.results_alerts.length = 1 ∧
    (assemble (assemble (initState {})
        [.instr "addi" ["t0", "t0", "5000"]]).state
      [.instr "addi" ["t0", "t0", "5000"]]).state.results_alerts.length = 2 :=
  ⟨rfl, rfl⟩

/-- Witness for the C9 amended theorem: a second run on a used instance
appends its fresh alerts to the stale ones. -/
theorem c9_amended_witness :
    (preprocessor [SrcLine.instr "addi" ["t0", "t0", "5000"]]).clean ≠ [] ∧
    (assemble (assemble (initState {})
        [SrcLine.instr "addi" ["t0", "t0", "5000"]]).state
      [SrcLine.instr "addi" ["t0", "t0", "5000"]]).state.results_alerts =
      (assemble (initState {})
        [SrcLine.instr "addi" ["t0", "t0", "5000"]]).state.results_alerts ++
      (assemble (initState (assemble (initState {})
          [SrcLine.instr "addi" ["t0", "t0", "5000"]]).state.warning_flags)
        [SrcLine.instr "addi" ["t0", "t0", "5000"]]).state.results_alerts :=
  ⟨by decide,
    (c9_amended (assemble (initState {})
        [SrcLine.instr "addi" ["t0", "t0", "5000"]]).state
      [SrcLine.instr "addi" ["t0", "t0", "5000"]] (by decide)).2.2.2.2⟩

/-- C7 (code-bug evaluation): a program of 1025 instruction lines under
the default capacity 1024 does fail the capacity check, but the error
message interpolates `self.MAX_INSTRUCIONS` (a misspelling), so the call
raises AttributeError before `record_alert` runs: no CapacityError alert
is recorded, no output is produced, and no result is returned (success
stays at its initial false). -/
theorem c7_capacity_crash :
    (preprocessor (List.replicate 1025
      (SrcLine.instr "addi" ["t0", "t0", "1"]))).clean.length = 1025 ∧
    (assemble (initState {}) (List.replicate 1025
      (SrcLine.instr "addi" ["t0", "t0", "1"]))).crash = some .attributeError ∧
    (assemble (initState {}) (List.replicate 1025
      (SrcLine.instr "addi" ["t0", "t0", "1"]))).output = [] ∧
    (assemble (initState {}) (List.replicate 1025
      (SrcLine.instr "addi" ["t0", "t0", "1"]))).state.results_alerts = [] ∧
    (assemble (initState {}) (List.replicate 1025
      (SrcLine.instr "addi" ["t0", "t0", "1"]))).state.results_success = false := by
  have hlen : (preprocessor (List.replicate 1025
      (SrcLine.instr "addi" ["t0", "t0", "1"]))).clean.length = 1025 := by
    unfold preprocessor
    rw [show List.replicate 1025 (SrcLine.instr "addi" ["t0", "t0", "1"]) =
      List.replicate 1025 (SrcLine.instr "addi" ["t0", "t0", "1"]) ++ [] from
      (List.append_nil _).symm]
    rw [prepGo_replicate_instr]
    simp [prepGo]
  have hcap : MAX_INSTRUCTIONS < (preprocessor (List.replicate 1025
      (SrcLine.instr "addi" ["t0", "t0", "1"]))).clean.length := by
    rw [hlen]
    unfold MAX_INSTRUCTIONS
    omega
  rw [assemble_eq_capacity _ _ hcap]
  exact ⟨hlen, rfl, rfl, rfl, rfl⟩

/-! ## C5 infrastructure: hex formatting lengths and completed runs -/

theorem get?_replicate_lt {α : Type} (a : α) :
    ∀ n m : Nat, m < n → (List.replicate n a).get? m = some a := by
  intro n
  induction n with
  | zero => intro m h; omega
  | succ n ih =>
    intro m h
    cases m with
    | zero => rfl
    | succ m => exact ih m (by omega)

theorem rawHexAux_fuel : ∀ n f1 f2 : Nat, n < f1 → n < f2 →
    rawHexAux f1 n = rawHexAux f2 n := by
  intro n
  induction n using Nat.strong_induction_on with
  | _ n ih =>
    intro f1 f2 h1 h2
    cases f1 with
    | zero => omega
    | succ g1 =>
      cases f2 with
      | zero => omega
      | succ g2 =>
        unfold rawHexAux
        by_cases hn : n < 16
        · rw [if_pos hn, if_pos hn]
        · rw [if_neg hn, if_neg hn]
          have hd : n / 16 < n := Nat.div_lt_self (by omega) (by omega)
          rw [ih (n / 16) hd g1 g2 (by omega) (by omega)]

theorem rawHexAux_len_le : ∀ k n f : Nat, 1 ≤ k → n < f → n < 16 ^ k →
    (rawHexAux f n).length ≤ k := by
  intro k
  induction k with
  | zero => intro n f h1 _ _; omega
  | succ k ih =>
    intro n f hk hf hn
    cases f with
    | zero => omega
    | succ g =>
      unfold rawHexAux
      by_cases h16 : n < 16
      · rw [if_pos h16]
        simp
      · rw [if_neg h16]
        have hk1 : 1 ≤ k := by
          rcases Nat.eq_zero_or_pos k with hk0 | hk0
          · subst hk0
            norm_num at hn
            omega
          · exact hk0
        have hdn : n / 16 < n := Nat.div_lt_self (by omega) (by omega)
        have hdb : n / 16 < 16 ^ k := by
          rw [Nat.div_lt_iff_lt_mul (by omega : 0 < 16)]
          calc n < 16 ^ (k + 1) := hn
          _ = 16 ^ k * 16 := by rw [pow_succ]
        have := ih (n / 16) g hk1 (by omega) hdb
        simp only [List.length_append, List.length_singleton]
        omega

theorem rawHex_len_le8 (n : Nat) (h : n < 2 ^ 32) : (rawHex n).length ≤ 8 := by
  unfold rawHex
  exact rawHexAux_len_le 8 n (n + 1) (by omega) (by omega) (by norm_num at h ⊢; omega)

/-- An 08x rendering of a word below 2^32 is exactly 8 characters. -/
theorem hex08_len8 (n : Nat) (h : n < 2 ^ 32) : (hex08 (n : Int)).length = 8 := by
  unfold hex08
  rw [if_neg (by omega)]
  show (List.replicate (8 - (rawHex (Int.toNat (n : Int))).length) '0' ++
    rawHex (Int.toNat (n : Int))).length = 8
  rw [Int.toNat_ofNat]
  have := rawHex_len_le8 n h
  simp only [List.length_append, List.length_replicate]
  omega

/-- A run of `assembleFinish` that does not crash wrote the whole memory
image and set success. -/
theorem assembleFinish_crash_none (st : AsmState)
    (h : (assembleFinish st).crash = none) :
    (assembleFinish st).state.memory = st.memory ∧
    (writeLoop st.memory).2 = none ∧
    (assembleFinish st).output = (writeLoop st.memory).1 ∧
    (assembleFinish st).state.results_success = true := by
  revert h
  unfold assembleFinish
  by_cases hsw : should_warn st.warning_flags "unused_label" = true
  · rw [if_pos hsw]
    cases hu : unusedLoop ⟨st.warning_flags, st.labels, st.line_nums,
        st.current_line_index⟩ st.labels with
    | error e => intro h; exact absurd h (by simp)
    | ok uas =>
      dsimp only
      cases hw : writeLoop st.memory with
      | mk ls e =>
        cases e with
        | none => intro _; exact ⟨rfl, rfl, rfl, rfl⟩
        | some pe => intro h; exact absurd h (by simp)
  · rw [if_neg hsw]
    cases hw : writeLoop st.memory with
    | mk ls e =>
      cases e with
      | none => intro _; exact ⟨rfl, rfl, rfl, rfl⟩
      | some pe => intro h; exact absurd h (by simp)

/-- C5 amended: whenever `assemble` completes without crashing, the image
and the written output both have exactly capacity (1024) entries; every
slot past the last real instruction holds the NOP word 0x00000013 and is
written as "00000013"; every output line is the 08x rendering of its word,
and any word below 2^32 renders as exactly 8 lowercase hex digits.  (A
U-type word with an out-of-range immediate can exceed 2^32 and then
renders longer — the counterexample.) -/
theorem c5_amended (st0 : AsmState) (lines : List SrcLine)
    (hc : (assemble st0 lines).crash = none) :
    (assemble st0 lines).state.memory.length = 1024 ∧
    (assemble st0 lines).output.length = 1024 ∧
    (∀ j : Nat, (preprocessor lines).clean.length ≤ j → j < 1024 →
      (assemble st0 lines).state.memory.get? j = some (.word NOP) ∧
      (assemble st0 lines).output.get? j = some "00000013") ∧
    (∀ (j : Nat) (n : Int),
      (assemble st0 lines).state.memory.get? j = some (.word n) →
      (assemble st0 lines).output.get? j = some (hex08 n)) ∧
    (∀ n : Nat, n < 2 ^ 32 → (hex08 (n : Int)).length = 8) := by
  have hcap : (preprocessor lines).clean.length ≤ MAX_INSTRUCTIONS := by
    by_contra hcap
    rw [assemble_eq_capacity st0 lines (by unfold MAX_INSTRUCTIONS at *; omega)] at hc
    exact absurd hc (by simp)
  rw [assemble_eq_finish st0 lines hcap] at hc ⊢
  obtain ⟨hmem, hwl2, hout, _⟩ := assembleFinish_crash_none _ hc
  obtain ⟨hwords, hmap⟩ := writeLoop_none_inv _ hwl2
  have hrl : (runO st0 lines).mem.length = (preprocessor lines).clean.length := by
    unfold runO
    exact encodeLoop_mem_len _ _ _ _ _ _ _ _
  have hmlen : (midState st0 lines).memory.length = 1024 := by
    show ((runO st0 lines).mem ++ List.replicate
      (MAX_INSTRUCTIONS - (runO st0 lines).mem.length)
        (MemWord.word NOP)).length = 1024
    simp only [List.length_append, List.length_replicate]
    unfold MAX_INSTRUCTIONS at hcap ⊢
    omega
  have hpad : ∀ j : Nat, (preprocessor lines).clean.length ≤ j → j < 1024 →
      (midState st0 lines).memory.get? j = some (.word NOP) := by
    intro j hj1 hj2
    show ((runO st0 lines).mem ++ List.replicate
      (MAX_INSTRUCTIONS - (runO st0 lines).mem.length)
        (MemWord.word NOP)).get? j = _
    rw [List.get?_append_right (by omega)]
    exact get?_replicate_lt _ _ _ (by unfold MAX_INSTRUCTIONS at hcap ⊢; omega)
  refine ⟨?_, ?_, ?_, ?_, hex08_len8⟩
  · rw [hmem]
    exact hmlen
  · rw [hout, hmap, List.length_map]
    exact hmlen
  · intro j hj1 hj2
    refine ⟨by rw [hmem]; exact hpad j hj1 hj2, ?_⟩
    rw [hout, hmap, List.get?_map, hpad j hj1 hj2]
    rfl
  · intro j n hj
    rw [hmem] at hj
    rw [hout, hmap, List.get?_map, hj]
    rfl

/-- Witness for the C5 amended theorem: a 2-instruction program fills
slots 2..1023 with "00000013" and writes 1024 lines. -/
theorem c5_amended_witness :
    (assemble (initState {}) [.instr "addi" ["a0", "zero", "5"],
      .instr "addi" ["a1", "zero", "6"]]).crash = none ∧
    (assemble (initState {}) [.instr "addi" ["a0", "zero", "5"],
      .instr "addi" ["a1", "zero", "6"]]).output.length = 1024 ∧
    (assemble (initState {}) [.instr "addi" ["a0", "zero", "5"],
      .instr "addi" ["a1", "zero", "6"]]).output.get? 2 = some "00000013" := by
  have h := c5_amended (initState {}) [.instr "addi" ["a0", "zero", "5"],
    .instr "addi" ["a1", "zero", "6"]] (by rfl)
  exact ⟨by rfl, h.2.1, (h.2.2.1 2 (by decide) (by decide)).2⟩

/-- C5 counterexample: `lui a0, 1048576` assembles successfully but emits
the word 2^32 + 1335, whose output line "100000537" has 9 digits — the
claimed "every line is exactly 8 lowercase hex digits / every word fits in
32 bits" fails (encode_u_type never masks the immediate). -/
theorem c5_counterexample :
    (assemble (initState {})
      [.instr "lui" ["a0", "1048576"]]).state.results_success = true ∧
    (assemble (initState {}) [.instr "lui" ["a0", "1048576"]]).crash = none ∧
    (assemble (initState {}) [.instr "lui" ["a0", "1048576"]]).state.memory.get? 0
      = some (.word 4294968631) ∧
    (2 : Int) ^ 32 ≤ 4294968631 ∧
    (assemble (initState {}) [.instr "lui" ["a0", "1048576"]]).output.get? 0
      = some "100000537" ∧
    ("100000537" : String).length ≠ 8 :=
  ⟨rfl, rfl, rfl, by decide, rfl, by decide⟩

/-! ## C2 infrastructure -/

theorem preprocessor_farLines :
    preprocessor farLines =
      ⟨[("x", 5996), ("far", 6000)],
        [("beq", ["a0", "zero", "far"]), ("addi", ["a0", "a0", "1"])],
        [1, 1502], 6008⟩ := by
  unfold preprocessor farLines
  rw [prepGo_cons_instr]
  rw [show List.replicate 1499 (SrcLine.labelDef "x" "") =
    List.replicate (1498 + 1) (SrcLine.labelDef "x" "") from rfl]
  rw [prepGo_replicate_label]
  rw [prepGo_cons_label, prepGo_cons_instr, prepGo_nil]
  rfl

theorem should_warn_ir_true (flags : WarningFlags)
    (h : should_warn flags "immediate_range" = true) :
    flags.suppress_all = false ∧ flags.no_immediate_range = false := by
  unfold should_warn at h
  rw [show pyLower "immediate_range" = "immediate_range" from rfl] at h
  by_cases hs : flags.suppress_all = true
  · rw [if_pos hs] at h
    exact absurd h (by simp)
  · rw [if_neg hs] at h
    rw [if_neg (by decide), if_pos (by decide)] at h
    exact ⟨by simpa using hs, by simpa using h⟩

/-- The range block on a B-format immediate: never fatal.  In range (or
with warnings off) it records nothing; out of range it records one
non-fatal `immediate_range` warning and still returns the immediate. -/
theorem warnBlock_b (c : Ctx) (imm : Int) (rl : Option String)
    (hcli : c.cli < c.line_nums.length) :
    ∃ as : List Alert, decodeWarnBlock c (some "B") imm rl = ⟨as, rl, .ok imm⟩ ∧
      (∀ a ∈ as, a.type = "warning" ∧ a.warning_type = some "immediate_range") ∧
      as.length ≤ 1 ∧
      (c.flags.suppress_all = true → as = []) ∧
      (c.flags.no_immediate_range = true → as = []) ∧
      ((-4096 ≤ imm ∧ imm < 4096) → as = []) := by
  unfold decodeWarnBlock
  by_cases hsw : should_warn c.flags "immediate_range" = true
  · rw [if_pos hsw]
    rw [if_neg (show ¬ (((some "B" : Option String) == some "I") ||
        (((some "B" : Option String) == some "S") &&
          !(decide (-2048 ≤ imm ∧ imm < 2048)))) = true from by
      rw [show ((some "B" : Option String) == some "I") = false from rfl,
        show ((some "B" : Option String) == some "S") = false from rfl,
        Bool.false_and, Bool.false_or]
      exact Bool.false_ne_true)]
    by_cases hr : -4096 ≤ imm ∧ imm < 4096
    · rw [if_neg (show ¬ (((some "B" : Option String) == some "B") &&
          !(decide (-4096 ≤ imm ∧ imm < 4096))) = true from by
        rw [show ((some "B" : Option String) == some "B") = true from rfl,
          Bool.true_and, decide_eq_true hr]
        simp)]
      rw [if_neg (show ¬ (((some "B" : Option String) == some "J") &&
          !(decide (-1048576 ≤ imm ∧ imm < 1048574))) = true from
          Bool.false_ne_true),
        if_neg (show ¬ (((some "B" : Option String) == some "J") &&
          !(imm.emod 2 == 0)) = true from Bool.false_ne_true),
        if_neg (show ¬ (((some "B" : Option String) == some "U") &&
          !(decide (0 ≤ imm ∧ imm < 2 ^ 20))) = true from Bool.false_ne_true)]
      exact ⟨[], rfl, fun a ha => absurd ha (List.not_mem_nil a), by decide,
        fun _ => rfl, fun _ => rfl, fun _ => rfl⟩
    · rw [if_pos (show (((some "B" : Option String) == some "B") &&
          !(decide (-4096 ≤ imm ∧ imm < 4096))) = true from by
        rw [show ((some "B" : Option String) == some "B") = true from rfl,
          Bool.true_and, decide_eq_false hr]
        rfl)]
      rw [record_alert_warning c _ (some "immediate_range") hcli]
      obtain ⟨hsa, hnir⟩ := should_warn_ir_true c.flags hsw
      rw [if_neg (by
        rw [hsa, hnir]
        simp)]
      refine ⟨[⟨"warning", _, c.line_nums.get ⟨c.cli, hcli⟩,
        some "immediate_range"⟩], rfl, ?_, ?_, ?_, ?_, ?_⟩
      · intro a ha
        rcases List.mem_cons.mp ha with h | h
        · rw [h]
          exact ⟨rfl, rfl⟩
        · exact absurd h (List.not_mem_nil a)
      · simp
      · intro hs
        rw [hs] at hsa
        exact absurd hsa (by simp)
      · intro hn
        rw [hn] at hnir
        exact absurd hnir (by simp)
      · intro hin
        exact absurd hin hr
  · rw [if_neg hsw]
    exact ⟨[], rfl, fun a ha => absurd ha (List.not_mem_nil a), by decide,
      fun _ => rfl, fun _ => rfl, fun _ => rfl⟩

theorem warnBlock_j (c : Ctx) (imm : Int) (rl : Option String)
    (hcli : c.cli < c.line_nums.length) (heven : imm % 2 = 0) :
    ∃ as : List Alert, decodeWarnBlock c (some "J") imm rl = ⟨as, rl, .ok imm⟩ ∧
      (∀ a ∈ as, a.type = "warning" ∧ a.warning_type = some "immediate_range") ∧
      as.length ≤ 1 ∧
      (c.flags.suppress_all = true → as = []) ∧
      (c.flags.no_immediate_range = true → as = []) ∧
      ((-1048576 ≤ imm ∧ imm < 1048574) → as = []) := by
  unfold decodeWarnBlock
  by_cases hsw : should_warn c.flags "immediate_range" = true
  · rw [if_pos hsw]
    rw [if_neg (show ¬ (((some "J" : Option String) == some "I") ||
        (((some "J" : Option String) == some "S") &&
          !(decide (-2048 ≤ imm ∧ imm < 2048)))) = true from by
      rw [show ((some "J" : Option String) == some "I") = false from rfl,
        show ((some "J" : Option String) == some "S") = false from rfl,
        Bool.false_and, Bool.false_or]
      exact Bool.false_ne_true)]
    rw [if_neg (show ¬ (((some "J" : Option String) == some "B") &&
        !(decide (-4096 ≤ imm ∧ imm < 4096))) = true from by
      rw [show ((some "J" : Option String) == some "B") = false from rfl,
        Bool.false_and]
      exact Bool.false_ne_true)]
    obtain ⟨hsa, hnir⟩ := should_warn_ir_true c.flags hsw
    by_cases hr : -1048576 ≤ imm ∧ imm < 1048574
    · rw [if_neg (show ¬ (((some "J" : Option String) == some "J") &&
          !(decide (-1048576 ≤ imm ∧ imm < 1048574))) = true from by
        rw [show ((some "J" : Option String) == some "J") = true from rfl,
          Bool.true_and, decide_eq_true hr]
        simp)]
      rw [if_neg (show ¬ (((some "J" : Option String) == some "J") &&
          !(imm.emod 2 == 0)) = true from by
        rw [show imm.emod 2 = 0 from heven]
        decide)]
      rw [if_neg (show ¬ (((some "J" : Option String) == some "U") &&
          !(decide (0 ≤ imm ∧ imm < 2 ^ 20))) = true from by
        rw [show ((some "J" : Option String) == some "U") = false from rfl,
          Bool.false_and]
        exact Bool.false_ne_true)]
      exact ⟨[], rfl, fun a ha => absurd ha (List.not_mem_nil a), by decide,
        fun _ => rfl, fun _ => rfl, fun _ => rfl⟩
    · rw [if_pos (show (((some "J" : Option String) == some "J") &&
          !(decide (-1048576 ≤ imm ∧ imm < 1048574))) = true from by
        rw [show ((some "J" : Option String) == some "J") = true from rfl,
          Bool.true_and, decide_eq_false hr]
        rfl)]
      rw [record_alert_warning c _ (some "immediate_range") hcli]
      rw [if_neg (by
        rw [hsa, hnir]
        simp)]
      refine ⟨[⟨"warning", _, c.line_nums.get ⟨c.cli, hcli⟩,
        some "immediate_range"⟩], rfl, ?_, ?_, ?_, ?_, ?_⟩
      · intro a ha
        rcases List.mem_cons.mp ha with h | h
        · rw [h]
          exact ⟨rfl, rfl⟩
        · exact absurd h (List.not_mem_nil a)
      · simp
      · intro hs
        rw [hs] at hsa
        exact absurd hsa (by simp)
      · intro hn
        rw [hn] at hnir
        exact absurd hnir (by simp)
      · intro hin
        exact absurd hin hr
  · rw [if_neg hsw]
    exact ⟨[], rfl, fun a ha => absurd ha (List.not_mem_nil a), by decide,
      fun _ => rfl, fun _ => rfl, fun _ => rfl⟩

theorem prepGo_cons_blank (labels : List (String × Nat))
    (clean : List (String × List String)) (lns : List Nat) (pc ln : Nat)
    (rest : List SrcLine) :
    prepGo labels clean lns pc ln (SrcLine.blank :: rest) =
      prepGo labels clean lns pc ln rest := rfl

theorem dictInsert_mem (l : List (String × Nat)) (k : String) (v : Nat) :
    ∀ p ∈ dictInsert l k v, p.2 = v ∨ p ∈ l := by
  intro p hp
  unfold dictInsert at hp
  by_cases h : l.any (fun q => q.1 == k) = true
  · rw [if_pos h] at hp
    obtain ⟨q, hq, hqe⟩ := List.mem_map.mp hp
    by_cases hk : (q.1 == k) = true
    · rw [if_pos hk] at hqe
      left
      rw [← hqe]
    · rw [if_neg hk] at hqe
      right
      rw [← hqe]
      exact hq
  · rw [if_neg h] at hp
    rcases List.mem_append.mp hp with h1 | h1
    · right
      exact h1
    · left
      rcases List.mem_cons.mp h1 with h2 | h2
      · rw [h2]
      · exact absurd h2 (List.not_mem_nil p)

/-- Pass 1 only ever binds a label to the running `pc`, which starts at a
multiple of 4 and moves in steps of 4: every address in the label table is
a multiple of 4. -/
theorem prepGo_labels_mod4 (ls : List SrcLine) :
    ∀ (labels : List (String × Nat)) (clean : List (String × List String))
      (lns : List Nat) (pc ln : Nat),
      (∀ p ∈ labels, p.2 % 4 = 0) → pc % 4 = 0 →
      ∀ p ∈ (prepGo labels clean lns pc ln ls).labels, p.2 % 4 = 0 := by
  induction ls with
  | nil =>
    intro labels clean lns pc ln hl hpc p hp
    exact hl p hp
  | cons l rest ih =>
    intro labels clean lns pc ln hl hpc
    cases l with
    | blank =>
      rw [prepGo_cons_blank]
      exact ih labels clean lns pc ln hl hpc
    | labelDef nm tr =>
      rw [prepGo_cons_label]
      refine ih (dictInsert labels nm pc) clean lns (pc + 4) (ln + 1) ?_ (by omega)
      intro p hp
      rcases dictInsert_mem labels nm pc p hp with h | h
      · rw [h]
        exact hpc
      · exact hl p h
    | instr m ops =>
      rw [prepGo_cons_instr]
      exact ih labels (clean ++ [(m, ops)]) (lns ++ [ln]) (pc + 4) (ln + 1) hl
        (by omega)

theorem preprocessor_labels_mod4 (lines : List SrcLine) :
    ∀ p ∈ (preprocessor lines).labels, p.2 % 4 = 0 :=
  prepGo_labels_mod4 lines [] [] [] 0 1
    (fun p hp => absurd hp (List.not_mem_nil p)) rfl

/-- C2 amended: for a B- or J-format instruction whose label is in the
table, with the label address and pc multiples of 4 (hence an even
offset), `decode_immediate` always succeeds with `labels[label] - pc`,
recording at most one alert, always a non-fatal `"warning"` of type
`immediate_range` — dropped entirely under `suppress_all` or
`no_immediate_range` and absent when the offset is within the B
(-4096..4095) resp. J (-1048576..1048573) window — and the odd-in-range-J
`ValueError` branch never fires.  The multiples-of-4 premises hold for
every driver call: each pass-1 label address is a multiple of 4 (third
conjunct), and pass 2 hands the instruction at image index `k` the pc
`0 + 4*k` (fourth conjunct). -/
theorem c2_amended (c : Ctx) (opc lab : String) (addr : Nat) (pcv : Int)
    (lines : List SrcLine)
    (hBJ : get_type opc = some "B" ∨ get_type opc = some "J")
    (hlab : List.lookup lab c.labels = some addr)
    (hcli : c.cli < c.line_nums.length)
    (h4a : addr % 4 = 0) (h4p : pcv % 4 = 0) :
    ((addr : Int) - pcv) % 2 = 0 ∧
    (∃ as : List Alert,
      decode_immediate c opc none (some lab) (some pcv) =
        ⟨as, some lab, .ok ((addr : Int) - pcv)⟩ ∧
      (∀ a ∈ as, a.type = "warning" ∧ a.warning_type = some "immediate_range") ∧
      as.length ≤ 1 ∧
      (c.flags.suppress_all = true → as = []) ∧
      (c.flags.no_immediate_range = true → as = []) ∧
      (get_type opc = some "B" →
        (-4096 ≤ (addr : Int) - pcv ∧ (addr : Int) - pcv < 4096) → as = []) ∧
      (get_type opc = some "J" →
        (-1048576 ≤ (addr : Int) - pcv ∧ (addr : Int) - pcv < 1048574) →
          as = [])) ∧
    (∀ p ∈ (preprocessor lines).labels, p.2 % 4 = 0) ∧
    (∀ (flags : WarningFlags) (labels : List (String × Nat)) (lns : List Nat)
        (m : String) (ops : List String)
        (bs as2 : List (String × List String)) (idx cli : Nat)
        (refs : List String),
      (encodeLoop flags labels lns idx 0 cli refs
          (as2 ++ (m, ops) :: bs)).mem.get? as2.length =
        some (assemble_instruction ⟨flags, labels, lns, idx + as2.length⟩ m ops
          ((0 + 4 * as2.length : Nat) : Int)).2.2 ∧
      ((0 + 4 * as2.length : Nat) : Int) % 4 = 0) := by
  have heven : ((addr : Int) - pcv) % 2 = 0 := by omega
  refine ⟨heven, ?_, preprocessor_labels_mod4 lines, ?_⟩
  · rcases hBJ with hB | hJ
    · unfold decode_immediate
      rw [hB]
      rw [if_pos (show (((some "B" : Option String) == some "B") ||
          ((some "B" : Option String) == some "J")) = true from by decide)]
      simp only [hlab]
      obtain ⟨as, heq, hty, hlen, hsup, hnir, hin⟩ :=
        warnBlock_b c ((addr : Int) - pcv) (some lab) hcli
      exact ⟨as, heq, hty, hlen, hsup, hnir, fun _ => hin,
        fun hJ2 => absurd hJ2 (by decide)⟩
    · unfold decode_immediate
      rw [hJ]
      rw [if_pos (show (((some "J" : Option String) == some "B") ||
          ((some "J" : Option String) == some "J")) = true from by decide)]
      simp only [hlab]
      obtain ⟨as, heq, hty, hlen, hsup, hnir, hin⟩ :=
        warnBlock_j c ((addr : Int) - pcv) (some lab) hcli heven
      exact ⟨as, heq, hty, hlen, hsup, hnir,
        fun hB2 => absurd hB2 (by decide), fun _ => hin⟩
  · intro flags labels lns m ops bs as2 idx cli refs
    exact ⟨encodeLoop_mem_split flags labels lns m ops bs as2 idx 0 cli refs,
      by omega⟩

/-- Witness for the C2 amended theorem: `jal` against a label at address
6000 from pc 0 — a J offset of 6000 (even, in the J window), decoded
without error. -/
theorem c2_amended_witness :
    (((6000 : Nat) : Int) - 0) % 2 = 0 ∧
    (∃ as : List Alert,
      decode_immediate ⟨{}, [("far", 6000)], [1], 0⟩ "jal" none (some "far")
          (some 0) = ⟨as, some "far", .ok (((6000 : Nat) : Int) - 0)⟩ ∧
      (∀ a ∈ as, a.type = "warning" ∧ a.warning_type = some "immediate_range") ∧
      as.length ≤ 1 ∧
      (({} : WarningFlags).suppress_all = true → as = []) ∧
      (({} : WarningFlags).no_immediate_range = true → as = []) ∧
      (get_type "jal" = some "B" →
        (-4096 ≤ ((6000 : Nat) : Int) - 0 ∧ ((6000 : Nat) : Int) - 0 < 4096) →
          as = []) ∧
      (get_type "jal" = some "J" →
        (-1048576 ≤ ((6000 : Nat) : Int) - 0 ∧
          ((6000 : Nat) : Int) - 0 < 1048574) → as = [])) ∧
    (∀ p ∈ (preprocessor farLines).labels, p.2 % 4 = 0) ∧
    (∀ (flags : WarningFlags) (labels : List (String × Nat)) (lns : List Nat)
        (m : String) (ops : List String)
        (bs as2 : List (String × List String)) (idx cli : Nat)
        (refs : List String),
      (encodeLoop flags labels lns idx 0 cli refs
          (as2 ++ (m, ops) :: bs)).mem.get? as2.length =
        some (assemble_instruction ⟨flags, labels, lns, idx + as2.length⟩ m ops
          ((0 + 4 * as2.length : Nat) : Int)).2.2 ∧
      ((0 + 4 * as2.length : Nat) : Int) % 4 = 0) :=
  c2_amended ⟨{}, [("far", 6000)], [1], 0⟩ "jal" "far" 6000 0 farLines
    (Or.inr rfl) rfl (by decide) (by decide) (by decide)

/-- C2 counterexample: a branch whose offset 6000 is far outside the
signed 13-bit range still assembles: with `suppress_all` the run succeeds
with an empty alert list (no fatal RangeError) and a full output image —
the out-of-range branch offset is not fatal and is silenced by
suppression. -/
theorem c2_counterexample :
    List.lookup "far" (preprocessor farLines).labels = some 6000 ∧
    ¬ ((6000 : Int) < 4096) ∧
    (assemble (initState { suppress_all := true })
      farLines).state.results_success = true ∧
    (assemble (initState { suppress_all := true }) farLines).crash = none ∧
    (assemble (initState { suppress_all := true })
      farLines).state.results_alerts = [] ∧
    (assemble (initState { suppress_all := true }) farLines).output.length
      = 1024 := by
  have hcap : (preprocessor farLines).clean.length ≤ MAX_INSTRUCTIONS := by
    rw [preprocessor_farLines]
    decide
  rw [assemble_eq_finish _ _ hcap]
  unfold midState runO
  rw [preprocessor_farLines]
  refine ⟨by rfl, by decide, rfl, rfl, rfl, rfl⟩

/-! ## C1 infrastructure -/

theorem nbCount_append (as bs : List SrcLine) :
    nbCount (as ++ bs) = nbCount as + nbCount bs := by
  unfold nbCount
  rw [List.filter_append, List.length_append]

theorem instrToks_append (as bs : List SrcLine) :
    instrToks (as ++ bs) = instrToks as ++ instrToks bs := by
  induction as with
  | nil => rfl
  | cons l rest ih =>
    cases l with
    | blank => simpa [instrToks] using ih
    | labelDef nm t => simpa [instrToks] using ih
    | instr m ops => simp [instrToks, ih]

theorem lCount_append (as bs : List SrcLine) :
    lCount (as ++ bs) = lCount as + lCount bs := by
  unfold lCount
  rw [List.filter_append, List.length_append]

/-- Non-blank lines are exactly the instruction and label lines. -/
theorem nbCount_eq (ls : List SrcLine) : nbCount ls = iCount ls + lCount ls := by
  induction ls with
  | nil => rfl
  | cons l rest ih =>
    cases l with
    | blank => exact ih
    | labelDef nm t =>
      show nbCount rest + 1 = iCount rest + (lCount rest + 1)
      omega
    | instr m ops =>
      show nbCount rest + 1 = (iCount rest + 1) + lCount rest
      omega

theorem prepGo_line_nums_len (ls : List SrcLine) : ∀ labels clean lns pc ln,
    (prepGo labels clean lns pc ln ls).line_nums.length =
      lns.length + (instrToks ls).length := by
  induction ls with
  | nil => intro labels clean lns pc ln; simp [prepGo, instrToks]
  | cons l rest ih =>
    intro labels clean lns pc ln
    cases l with
    | blank => simp [prepGo, ih, instrToks]
    | labelDef nm t => simp [prepGo, ih, instrToks]
    | instr m ops =>
      rw [prepGo_cons_instr, ih]
      simp [instrToks]
      omega

theorem preprocessor_line_nums_len (lines : List SrcLine) :
    (preprocessor lines).line_nums.length = iCount lines := by
  unfold preprocessor iCount
  rw [prepGo_line_nums_len]
  simp

/-- The B-format branch of `decode_immediate` with a known label: always
succeeds with `labels[label] - pc`, never fatally. -/
theorem decode_b_full (c : Ctx) (opc lab : String) (addr : Nat) (pcv : Int)
    (hB : get_type opc = some "B")
    (hlab : List.lookup lab c.labels = some addr)
    (hcli : c.cli < c.line_nums.length) :
    ∃ as : List Alert,
      decode_immediate c opc none (some lab) (some pcv) =
        ⟨as, some lab, .ok ((addr : Int) - pcv)⟩ ∧
      (∀ a ∈ as, a.type = "warning" ∧ a.warning_type = some "immediate_range") ∧
      (c.flags.suppress_all = true → as = []) ∧
      ((-4096 ≤ (addr : Int) - pcv ∧ (addr : Int) - pcv < 4096) → as = []) := by
  unfold decode_immediate
  rw [hB]
  rw [if_pos (show (((some "B" : Option String) == some "B") ||
      ((some "B" : Option String) == some "J")) = true from by decide)]
  simp only [hlab]
  obtain ⟨as, heq, hty, hlen, hsup, hnir, hin⟩ := warnBlock_b c ((addr : Int) - pcv)
    (some lab) hcli
  exact ⟨as, heq, hty, hsup, hin⟩

theorem encode_b_general (c : Ctx) (opc r1S r2S lab : String)
    (r1 r2 f3v : Nat) (oi : OpInfo) (addr : Nat) (pcv : Int)
    (hB : get_type opc = some "B")
    (h3 : List.lookup opc func3 = some f3v)
    (hoi : List.lookup opc opcodes = some oi)
    (hr1 : List.lookup r1S registers = some r1)
    (hr2 : List.lookup r2S registers = some r2)
    (hlab : List.lookup lab c.labels = some addr)
    (hcli : c.cli < c.line_nums.length) :
    ∃ as : List Alert,
      encode_b_type c opc [r1S, r2S, lab] pcv =
        ⟨as, some lab,
          .ok ((b_pack r1 r2 f3v oi.opcode ((addr : Int) - pcv) : Nat) : Int)⟩ := by
  obtain ⟨as, hdec, _, _, _⟩ := decode_b_full c opc lab addr pcv hB hlab hcli
  refine ⟨as, ?_⟩
  simp only [encode_b_type, validate_registers_ok2 c r1S r2S r1 r2 hr1 hr2,
    hdec, h3, hoi]
  simp

theorem assemble_instruction_beq (c : Ctx) (r1S r2S lab : String)
    (r1 r2 : Nat) (addr : Nat) (pcv : Int)
    (hr1 : List.lookup r1S registers = some r1)
    (hr2 : List.lookup r2S registers = some r2)
    (hlab : List.lookup lab c.labels = some addr)
    (hcli : c.cli < c.line_nums.length) :
    ∃ as : List Alert,
      assemble_instruction c "beq" [r1S, r2S, lab] pcv =
        (as, some lab,
          .word ((b_pack r1 r2 0 0b1100011 ((addr : Int) - pcv) : Nat) : Int)) := by
  obtain ⟨as, henc⟩ := encode_b_general c "beq" r1S r2S lab r1 r2 0
    ⟨0b1100011, "B", none⟩ addr pcv rfl rfl rfl hr1 hr2 hlab hcli
  refine ⟨as, ?_⟩
  unfold assemble_instruction
  rw [show get_type "beq" = some "B" from rfl]
  rw [henc]
  rfl

theorem assemble_state_memory (st0 : AsmState) (lines : List SrcLine)
    (hcap : (preprocessor lines).clean.length ≤ MAX_INSTRUCTIONS) :
    (assemble st0 lines).state.memory =
      (runO st0 lines).mem ++ List.replicate
        (MAX_INSTRUCTIONS - (runO st0 lines).mem.length) (MemWord.word NOP) := by
  rw [assemble_eq_finish st0 lines hcap]
  exact (assembleFinish_congr (midState st0 lines) (midState st0 lines)
    rfl rfl rfl rfl rfl).2.2.1

theorem c1_counterexample :
    List.lookup "skip" (preprocessor progX).labels = some 8 ∧
    (preprocessor progX).clean =
      [("beq", ["a0", "zero", "skip"]), ("addi", ["a0", "a0", "1"])] ∧
    (assemble (initState ⟨false, false, false, false⟩) progX).state.memory.get? 0 =
      some (MemWord.word ((b_pack 10 0 0 0b1100011 8 : Nat) : Int)) ∧
    (8 : Int) ≠ (4 * 1 - 4 * 0 : Int) :=
  ⟨rfl, rfl, rfl, by decide⟩

theorem get?_append_len {α : Type} (l1 : List α) (x : α) (l2 : List α) :
    (l1 ++ x :: l2).get? l1.length = some x := by
  rw [List.get?_append_right (le_refl _)]
  simp

/-- C1 amended: a forward B-type branch resolves, via the pass-1 label
table, to the immediate `label_address - branch_pc`, where the branch pc
is 4 times the branch's index among instruction lines and the label
address is 4 times the count of non-blank lines (instructions AND label
definitions) before the label definition.  That immediate is positive and
even, and it equals the byte distance in the emitted image between the
branch word (image index `iCount xs`) and the first instruction word after
the label (image index `iCount xs + 1 + iCount ms`) PLUS 4 bytes for every
label-definition line before the label definition — so the claimed
equality with the byte distance holds exactly when no label lines precede
the definition. -/
theorem c1_amended (flags : WarningFlags) (lines xs ms cs ds : List SrcLine)
    (r1S r2S L t tm : String) (tops : List String) (r1 r2 : Nat)
    (hlines : lines = xs ++ SrcLine.instr "beq" [r1S, r2S, L] ::
      (ms ++ SrcLine.labelDef L t :: (cs ++ SrcLine.instr tm tops :: ds)))
    (hr1 : List.lookup r1S registers = some r1)
    (hr2 : List.lookup r2S registers = some r2)
    (hLcs : noDef L cs) (hLds : noDef L ds)
    (hcs : instrToks cs = [])
    (hcap : iCount lines ≤ 1024) :
    List.lookup L (preprocessor lines).labels =
      some (4 * (nbCount xs + 1 + nbCount ms)) ∧
    (preprocessor lines).clean.get? (iCount xs) = some ("beq", [r1S, r2S, L]) ∧
    (preprocessor lines).clean.get? (iCount xs + 1 + iCount ms) =
      some (tm, tops) ∧
    (assemble (initState flags) lines).state.memory.get? (iCount xs) =
      some (.word ((b_pack r1 r2 0 0b1100011
        (((4 * (nbCount xs + 1 + nbCount ms) : Nat) : Int) -
          ((4 * iCount xs : Nat) : Int)) : Nat) : Int)) ∧
    ((4 * (nbCount xs + 1 + nbCount ms) : Nat) : Int) -
        ((4 * iCount xs : Nat) : Int) =
      ((4 * (iCount xs + 1 + iCount ms) : Int) - (4 * iCount xs : Int)) +
        4 * (lCount xs + lCount ms) ∧
    0 < ((4 * (nbCount xs + 1 + nbCount ms) : Nat) : Int) -
        ((4 * iCount xs : Nat) : Int) ∧
    (((4 * (nbCount xs + 1 + nbCount ms) : Nat) : Int) -
        ((4 * iCount xs : Nat) : Int)) % 2 = 0 := by
  subst hlines
  have hnoDef : noDef L (cs ++ SrcLine.instr tm tops :: ds) := by
    intro l hl
    rcases List.mem_append.mp hl with h | h
    · exact hLcs l h
    · rcases List.mem_cons.mp h with h1 | h1
      · rw [h1]
        rfl
      · exact hLds l h1
  have hassoc : xs ++ SrcLine.instr "beq" [r1S, r2S, L] ::
      (ms ++ SrcLine.labelDef L t :: (cs ++ SrcLine.instr tm tops :: ds)) =
      (xs ++ SrcLine.instr "beq" [r1S, r2S, L] :: ms) ++
        SrcLine.labelDef L t :: (cs ++ SrcLine.instr tm tops :: ds) := by
    simp
  have hnb : nbCount (xs ++ SrcLine.instr "beq" [r1S, r2S, L] :: ms) =
      nbCount xs + 1 + nbCount ms := by
    rw [nbCount_append]
    show nbCount xs + (nbCount ms + 1) = _
    omega
  have h1 : List.lookup L (preprocessor (xs ++
      SrcLine.instr "beq" [r1S, r2S, L] ::
        (ms ++ SrcLine.labelDef L t :: (cs ++ SrcLine.instr tm tops :: ds)))).labels =
      some (4 * (nbCount xs + 1 + nbCount ms)) := by
    rw [hassoc]
    unfold preprocessor
    rw [prepGo_labels_split L t _ _ hnoDef [] [] [] 0 1, hnb]
    simp
  have hclean : (preprocessor (xs ++ SrcLine.instr "beq" [r1S, r2S, L] ::
      (ms ++ SrcLine.labelDef L t :: (cs ++ SrcLine.instr tm tops :: ds)))).clean =
      instrToks xs ++ ("beq", [r1S, r2S, L]) ::
        (instrToks ms ++ ((tm, tops) :: instrToks ds)) := by
    rw [preprocessor_clean, instrToks_append]
    congr 1
    show ("beq", [r1S, r2S, L]) ::
      instrToks (ms ++ SrcLine.labelDef L t :: (cs ++ SrcLine.instr tm tops :: ds)) = _
    congr 1
    rw [instrToks_append]
    congr 1
    show instrToks (cs ++ SrcLine.instr tm tops :: ds) = (tm, tops) :: instrToks ds
    rw [instrToks_append, hcs]
    rfl
  have h2 : (preprocessor (xs ++ SrcLine.instr "beq" [r1S, r2S, L] ::
      (ms ++ SrcLine.labelDef L t :: (cs ++ SrcLine.instr tm tops :: ds)))).clean.get?
        (iCount xs) = some ("beq", [r1S, r2S, L]) := by
    rw [hclean, show iCount xs = (instrToks xs).length from rfl, get?_append_len]
  have h3 : (preprocessor (xs ++ SrcLine.instr "beq" [r1S, r2S, L] ::
      (ms ++ SrcLine.labelDef L t :: (cs ++ SrcLine.instr tm tops :: ds)))).clean.get?
        (iCount xs + 1 + iCount ms) = some (tm, tops) := by
    rw [hclean]
    rw [List.get?_append_right (show (instrToks xs).length ≤ iCount xs + 1 + iCount ms from by
      have hx : (instrToks xs).length = iCount xs := rfl
      omega)]
    rw [show iCount xs + 1 + iCount ms - (instrToks xs).length = iCount ms + 1 from by
      have hx : (instrToks xs).length = iCount xs := rfl
      omega]
    show (instrToks ms ++ (tm, tops) :: instrToks ds).get? (iCount ms) = some (tm, tops)
    rw [show iCount ms = (instrToks ms).length from rfl, get?_append_len]
  have hcap2 : (preprocessor (xs ++ SrcLine.instr "beq" [r1S, r2S, L] ::
      (ms ++ SrcLine.labelDef L t :: (cs ++ SrcLine.instr tm tops :: ds)))).clean.length
        ≤ MAX_INSTRUCTIONS := by
    rw [preprocessor_clean]
    unfold iCount at hcap
    unfold MAX_INSTRUCTIONS
    omega
  have hcleanlen : (preprocessor (xs ++ SrcLine.instr "beq" [r1S, r2S, L] ::
      (ms ++ SrcLine.labelDef L t :: (cs ++ SrcLine.instr tm tops :: ds)))).clean.length =
      iCount xs + 1 + (iCount ms + 1 + iCount ds) := by
    rw [hclean]
    simp [List.length_append, iCount]
    omega
  have hlnslen : (preprocessor (xs ++ SrcLine.instr "beq" [r1S, r2S, L] ::
      (ms ++ SrcLine.labelDef L t :: (cs ++ SrcLine.instr tm tops :: ds)))).line_nums.length =
      iCount xs + 1 + (iCount ms + 1 + iCount ds) := by
    rw [preprocessor_line_nums_len]
    have h := hcleanlen
    rw [preprocessor_clean] at h
    unfold iCount at h ⊢
    exact h
  have h4 : (assemble (initState flags) (xs ++ SrcLine.instr "beq" [r1S, r2S, L] ::
      (ms ++ SrcLine.labelDef L t :: (cs ++ SrcLine.instr tm tops :: ds)))).state.memory.get?
        (iCount xs) =
      some (.word ((b_pack r1 r2 0 0b1100011
        (((4 * (nbCount xs + 1 + nbCount ms) : Nat) : Int) -
          ((4 * iCount xs : Nat) : Int)) : Nat) : Int)) := by
    rw [assemble_state_memory _ _ hcap2]
    have hmlen : (runO (initState flags) (xs ++ SrcLine.instr "beq" [r1S, r2S, L] ::
        (ms ++ SrcLine.labelDef L t :: (cs ++ SrcLine.instr tm tops :: ds)))).mem.length =
        iCount xs + 1 + (iCount ms + 1 + iCount ds) := by
      unfold runO
      rw [encodeLoop_mem_len]
      exact hcleanlen
    rw [List.get?_append (by omega)]
    unfold runO
    have hwf : (initState flags).warning_flags = flags := rfl
    have hcli0 : (initState flags).current_line_index = 1 := rfl
    have hrf : (initState flags).referenced_labels = ([] : List String) := rfl
    rw [hwf, hcli0, hrf, hclean]
    obtain ⟨asb, hain⟩ := assemble_instruction_beq
      ⟨flags, (preprocessor (xs ++ SrcLine.instr "beq" [r1S, r2S, L] ::
        (ms ++ SrcLine.labelDef L t :: (cs ++ SrcLine.instr tm tops :: ds)))).labels,
       (preprocessor (xs ++ SrcLine.instr "beq" [r1S, r2S, L] ::
        (ms ++ SrcLine.labelDef L t :: (cs ++ SrcLine.instr tm tops :: ds)))).line_nums,
       0 + (instrToks xs).length⟩
      r1S r2S L r1 r2 (4 * (nbCount xs + 1 + nbCount ms))
      ((0 + 4 * (instrToks xs).length : Nat) : Int) hr1 hr2 h1
      (by
        show 0 + (instrToks xs).length < _
        rw [hlnslen]
        have h : (instrToks xs).length = iCount xs := rfl
        omega)
    rw [show iCount xs = (instrToks xs).length from rfl]
    rw [encodeLoop_mem_split _ _ _ _ _ _ (instrToks xs) 0 0 1 []]
    rw [hain]
    have e : ((4 * (nbCount xs + 1 + nbCount ms) : Nat) : Int) -
        ((0 + 4 * (instrToks xs).length : Nat) : Int) =
        ((4 * (nbCount xs + 1 + nbCount ms) : Nat) : Int) -
        ((4 * iCount xs : Nat) : Int) := by
      have h : (instrToks xs).length = iCount xs := rfl
      omega
    rw [e]
    rfl
  refine ⟨h1, h2, h3, h4, ?_, ?_, ?_⟩
  · have e1 := nbCount_eq xs
    have e2 := nbCount_eq ms
    push_cast
    omega
  · have e1 := nbCount_eq xs
    push_cast
    omega
  · push_cast
    omega

theorem c1_amended_witness :
    List.lookup "skip" (preprocessor progX).labels =
      some (4 * (nbCount [SrcLine.labelDef "start" ""] + 1 +
        nbCount ([] : List SrcLine))) :=
  (c1_amended ⟨false, false, false, false⟩ progX [SrcLine.labelDef "start" ""]
    [] [] [] "a0" "zero" "skip" "" "addi" ["a0", "a0", "1"] 10 0 rfl rfl rfl
    (by decide) (by decide) rfl (by decide)).1

end RV32I
